import Mathlib

/-
Verification of the adaptive layout and rendering engine of the
Aktien-tool repository (`src/app.py`, `src/compare_app.py`).

Modelling conventions, used throughout:

* Python floats are modelled by `PyNum`: a sign bit together with an exact
  nonnegative rational magnitude.  The fixed-point rendering of an f-string
  such as `f"{x:,.2f}"` is modelled as round-half-even of the exact rational
  value.  (CPython rounds the binary double; on the decimal literals that
  occur in the claims and counterexamples the two agree.)
* `float(s)` on finite decimal literals (optional sign, digits, decimal
  point, exponent) is modelled by `parseNum`; the exotic forms `inf`, `nan`
  and underscore digit separators are not modelled.
* pandas cells are `Option String`; `none` models a missing cell / NaN.
* PIL text measurement (`draw.textlength`) is an abstract function
  `String → ℕ` (pixel width); the fit-loop of `app.py` only ever uses the
  maximum measured width over the fixed label list / value list, so there it
  is abstracted to functions `ℕ → ℕ` of the font size.
-/

set_option maxRecDepth 100000

namespace StockTool

/-- Sign-magnitude model of a Python float: `neg` is the sign bit, `mag` the
absolute value as an exact rational.  This keeps `-0.0` distinguishable from
`0.0`, as CPython's formatting does. -/
structure PyNum where
  neg : Bool
  mag : ℚ
deriving DecidableEq

/-- The signed rational value of a `PyNum` (used for comparisons and
arithmetic, where Python's `-0.0 == 0.0`). -/
def PyNum.toRat (x : PyNum) : ℚ := if x.neg then -x.mag else x.mag

/-- A `PyNum` from a signed rational (the sign bit of a computed float). -/
def pyOfRat (q : ℚ) : PyNum := ⟨decide (q < 0), |q|⟩

/-- The character for the decimal digit `d` (`d < 10`). -/
def digitChar (d : ℕ) : Char := Char.ofNat (48 + d)

/-- Decimal digit characters of `n`, most significant first (`"0"` for 0). -/
def natChars (n : ℕ) : List Char :=
  if n = 0 then [digitChar 0] else (Nat.digits 10 n).reverse.map digitChar

/-- Numeric value of a digit character. -/
def digitVal (c : Char) : ℕ := c.toNat - 48

/-- Value of a big-endian list of decimal digit characters. -/
def digitsVal (l : List Char) : ℕ := l.foldl (fun a c => 10 * a + digitVal c) 0

/-- Python `str.strip()` (space characters; the inputs that occur contain
no other whitespace). -/
def trimSpaces (l : List Char) : List Char :=
  ((l.dropWhile (· = ' ')).reverse.dropWhile (· = ' ')).reverse

/-- Optional sign prefix of a Python float literal. -/
def parseSign : List Char → Bool × List Char
  | [] => (false, [])
  | c :: r =>
    if c = '-' then (true, r)
    else if c = '+' then (false, r)
    else (false, c :: r)

/-- Mantissa of a Python float literal: `digits [. [digits]]` or `. digits`.
Returns its rational value and the unconsumed rest. -/
def parseMantissa (l : List Char) : Option (ℚ × List Char) :=
  match l.dropWhile Char.isDigit with
  | '.' :: r2 =>
    if (l.takeWhile Char.isDigit).isEmpty ∧ (r2.takeWhile Char.isDigit).isEmpty then none
    else
      some ((digitsVal (l.takeWhile Char.isDigit) : ℚ) +
        (digitsVal (r2.takeWhile Char.isDigit) : ℚ) /
          10 ^ (r2.takeWhile Char.isDigit).length,
        r2.dropWhile Char.isDigit)
  | _ =>
    if (l.takeWhile Char.isDigit).isEmpty then none
    else some ((digitsVal (l.takeWhile Char.isDigit) : ℚ), l.dropWhile Char.isDigit)

/-- Exponent digits after `e`/`E` (the marker itself already consumed). -/
def parseExpTail (l : List Char) : Option (ℤ × List Char) :=
  let (sgn, r0) := parseSign l
  let ds := r0.takeWhile Char.isDigit
  let r1 := r0.dropWhile Char.isDigit
  if ds.isEmpty then none
  else some ((if sgn then -(digitsVal ds : ℤ) else (digitsVal ds : ℤ)), r1)

/-- Optional exponent part of a Python float literal. -/
def parseExp (l : List Char) : Option (ℤ × List Char) :=
  match l with
  | 'e' :: r => parseExpTail r
  | 'E' :: r => parseExpTail r
  | _ => some (0, l)

/-- The mantissa/exponent stage of `parseNum` after the sign has been
consumed. -/
def parseAfterSign (neg : Bool) (r0 : List Char) : Option PyNum :=
  match parseMantissa r0 with
  | none => none
  | some (m, r1) =>
    match parseExp r1 with
    | none => none
    | some (e, r2) => if r2.isEmpty then some ⟨neg, m * (10 : ℚ) ^ e⟩ else none

/-- Model of Python `float(s)` on finite decimal literals: optional
surrounding spaces, optional sign, mantissa, optional exponent.  Returns
`none` where `float` raises `ValueError`. -/
def parseNum (s : String) : Option PyNum :=
  parseAfterSign (parseSign (trimSpaces s.toList)).1 (parseSign (trimSpaces s.toList)).2

/-- Round half to even: models the rounding of Python fixed-point formatting
(applied to the exact rational magnitude). -/
def rndHalfEven (q : ℚ) : ℤ :=
  if q - ⌊q⌋ < 1 / 2 then ⌊q⌋
  else if 1 / 2 < q - ⌊q⌋ then ⌊q⌋ + 1
  else if ⌊q⌋ % 2 = 0 then ⌊q⌋ else ⌊q⌋ + 1

/-- Thousands grouping, little-endian worker: a separator after every three
digits as long as more digits follow. -/
def group3Aux : List Char → List Char
  | d1 :: d2 :: d3 :: d4 :: rest => d1 :: d2 :: d3 :: ',' :: group3Aux (d4 :: rest)
  | l => l

/-- Thousands grouping of a big-endian digit list, as in `f"{n:,}"`. -/
def group3 (l : List Char) : List Char := (group3Aux l.reverse).reverse

/-- The fixed-point rendering `f"{x:,.{dec}f}"` as a function of the sign and
of the already-rounded nonnegative integer `n` (the value scaled by
`10 ^ dec`). -/
def fmtFixedRounded (neg : Bool) (n dec : ℕ) : List Char :=
  (if neg then ['-'] else []) ++ group3 (natChars (n / 10 ^ dec)) ++
    (if dec = 0 then []
     else '.' :: (List.replicate (dec - (natChars (n % 10 ^ dec)).length) '0' ++
       natChars (n % 10 ^ dec)))

/-- Model of the f-string `f"{x:,.{dec}f}"`. -/
def fmtFixedChars (x : PyNum) (dec : ℕ) : List Char :=
  fmtFixedRounded x.neg (rndHalfEven (x.mag * 10 ^ dec)).toNat dec

/-- compare_app `_fmt_locale` separator swap, i.e.
`s.replace(",","_").replace(".",",").replace("_",".")`; a rendered number
never contains an underscore, so the swap is a character map. -/
def swapSepCmp (c : Char) : Char :=
  if c = ',' then '.' else if c = '.' then ',' else c

/-- app.py `_fmt_locale` separator swap, i.e.
`s.replace(",", " ").replace(".", ",")`. -/
def swapSepApp (c : Char) : Char :=
  if c = ',' then ' ' else if c = '.' then ',' else c

/-- Python `s.rstrip(c)` on a character list. -/
def rstrip (l : List Char) (c : Char) : List Char :=
  (l.reverse.dropWhile (· = c)).reverse

/-- compare_app `_fmt_locale` as a function of the sign and the rounded
scaled integer: German separators, then
`if "," in s and dec > 0: s = s.rstrip("0").rstrip(",")`. -/
def fmt_locale_cmpN (neg : Bool) (n dec : ℕ) : String :=
  let s := (fmtFixedRounded neg n dec).map swapSepCmp
  if s.contains ',' ∧ 0 < dec then (rstrip (rstrip s '0') ',').asString
  else s.asString

/-- compare_app `_fmt_locale`: thousands separator `.`, decimal separator
`,`, trailing zeros (and a then-trailing comma) stripped. -/
def fmt_locale_cmp (x : PyNum) (dec : ℕ) : String :=
  fmt_locale_cmpN x.neg (rndHalfEven (x.mag * 10 ^ dec)).toNat dec

/-- app.py `_fmt_locale`: thousands separator a space, decimal separator a
comma, no stripping. -/
def fmt_locale_app (x : PyNum) (dec : ℕ) : String :=
  ((fmtFixedChars x dec).map swapSepApp).asString

/-- Python `s.replace(",", ".")` (used before `float(...)`). -/
def commaToDot (s : String) : String :=
  (s.toList.map (fun c => if c = ',' then '.' else c)).asString

/-- compare_app `fmt_number`: `none` (NaN) renders as a dash, unparseable
text is returned unchanged, numbers go through `_fmt_locale`. -/
def fmt_number (val : Option String) (dec : ℕ := 2) : String :=
  match val with
  | none => "–"
  | some s =>
    match parseNum (commaToDot s) with
    | none => s
    | some x => fmt_locale_cmp x dec

/-- compare_app `fmt_number` applied to an already-numeric value (the inner
call of the idempotence claim): `pd.isna` is false and `float(str(x))`
recovers `x`, so only the `_fmt_locale` step remains. -/
def fmt_number_num (x : PyNum) : String := fmt_locale_cmp x 2

/-- `str(val).strip().replace("%", "")` of both `fmt_percent_for` versions. -/
def stripPercent (s : String) : List Char := (trimSpaces s.toList).filter (· ≠ '%')

/-- The numeric parse both `fmt_percent_for` versions perform:
`float(s_raw.replace(",", "."))` on the stripped text. -/
def percent_num (v : String) : Option PyNum :=
  parseNum (((stripPercent v).map (fun c => if c = ',' then '.' else c)).asString)

/-- compare_app `fmt_percent_for` (the `key` argument is unused there):
fractions of magnitude at most 1.5 are scaled by 100, then rendered with one
decimal and a percent suffix. -/
def cmp_fmt_percent_for (key : String) (val : Option String) (dec : ℕ := 1) : String :=
  match val with
  | none => "–"
  | some v =>
    match percent_num v with
    | none => v
    | some x =>
      let y : PyNum := if x.mag ≤ 3 / 2 then ⟨x.neg, x.mag * 100⟩ else x
      fmt_locale_cmp y dec ++ "%"

/-- app.py `_count_decimals`: the digits after the first decimal separator
(comma preferred over dot), any exponent part removed. -/
def count_decimals : List Char → ℕ := fun l =>
  let part :=
    match afterFirst ',' l with
    | some p => p
    | none =>
      match afterFirst '.' l with
      | some p => p
      | none => []
  (((part.takeWhile (· ≠ 'e')).takeWhile (· ≠ 'E')).filter Char.isDigit).length
where
  /-- The suffix after the first occurrence of `c`, if any
  (`s.split(c, 1)[1]`). -/
  afterFirst (c : Char) : List Char → Option (List Char)
    | [] => none
    | x :: r => if x = c then some r else afterFirst c r

/-- app.py `fmt_percent_for`: for the yield-like keys the scaling heuristic
also inspects the literal decimal digit count of the raw text; other percent
keys scale whenever the magnitude is at most 1.5. -/
def app_fmt_percent_for (key : String) (val : Option String) (dec : ℕ := 2) : String :=
  match val with
  | none => "–"
  | some v =>
    let s_raw := stripPercent v
    match percent_num v with
    | none => v
    | some x =>
      let y : PyNum :=
        if key = "Dividendenrendite" ∨ key = "Free Cashflow Yield" then
          if x.mag < 3 / 2 ∧ 3 ≤ count_decimals s_raw then ⟨x.neg, x.mag * 100⟩ else x
        else
          if x.mag ≤ 3 / 2 then ⟨x.neg, x.mag * 100⟩ else x
      fmt_locale_app y dec ++ "%"

/-
The font-shrink loop of `generate_image` in `app.py`.

The canvas is fixed (1080 x 1350), so the derived integer geometry is
concrete: `x = int(1080 * 0.06) = 64`, `avail_w = 1080 - 2*64 = 952`,
`col_gap = int(1080 * 0.05) = 54`, `col_w = (952 - 54) // 2 = 449`,
`int(col_w * 0.72) = 323`, and the initial label/value font size is
`LABEL_SZ = max(28, int(1080 * 0.037)) = 39` (both loop fonts start from
`f_lbl`).  `int(size * 2.10)` equals `21 * size / 10` in integer arithmetic
for the font sizes that occur.

The loop only uses the maximum measured label width and the maximum measured
value width at the current font sizes, so the text measurement is abstracted
to the two functions `maxLabelPx` and `maxValPx` of the font size.
-/

/-- `MIN_FONT` of `generate_image`. -/
def MIN_FONT : ℕ := 22

/-- The per-metric column width `col_w` (concrete canvas geometry). -/
def col_w : ℕ := 449

/-- `int(col_w * 0.72)`, the cap on the label width. -/
def label_cap : ℕ := 323

/-- `LABEL_SZ`, the initial size of both loop fonts. -/
def LABEL_SZ : ℕ := 39

/-- The measurement environment of the fit loop: maximum label pixel width
and maximum value pixel width as functions of the font size, the row count
`max_rows`, and the available vertical space. -/
structure FitParams where
  maxLabelPx : ℕ → ℕ
  maxValPx : ℕ → ℕ
  maxRows : ℕ
  availV : ℕ

/-- `_label_w = min(int(col_w * 0.72), max_label_px + 18)` of
`compute_label_value_widths`. -/
def label_w_of (p : FitParams) (ls : ℕ) : ℕ := min label_cap (p.maxLabelPx ls + 18)

/-- `_value_w = col_w - _label_w` of `compute_label_value_widths`. -/
def value_w_of (p : FitParams) (ls : ℕ) : ℕ := col_w - label_w_of p ls

/-- `compute_label_value_widths`: label width, value width, and widest
formatted value at the given fonts. -/
def compute_label_value_widths (p : FitParams) (ls vs : ℕ) : ℕ × ℕ × ℕ :=
  (label_w_of p ls, value_w_of p ls, p.maxValPx vs)

/-- `line_h = int(f_lbl_cur.size * LINE_SPACING_MULT)` with the multiplier
2.10. -/
def line_h_of (ls : ℕ) : ℕ := 21 * ls / 10

/-- `fits_width = (max_val_px <= value_w)`. -/
def fits_width (p : FitParams) (ls vs : ℕ) : Prop := p.maxValPx vs ≤ value_w_of p ls

/-- `fits_height = (total_h <= available_vertical)`. -/
def fits_height (p : FitParams) (ls : ℕ) : Prop := p.maxRows * line_h_of ls ≤ p.availV

instance (p : FitParams) (ls vs : ℕ) : Decidable (fits_width p ls vs) :=
  inferInstanceAs (Decidable (_ ≤ _))

instance (p : FitParams) (ls : ℕ) : Decidable (fits_height p ls) :=
  inferInstanceAs (Decidable (_ ≤ _))

/-- One iteration of the `while True` shrink loop on the current label and
value font sizes: `none` means the loop body breaks in this state (either
both constraints hold, or nothing changed), `some s` means the body shrank
to `s` and iterates.  Branch order follows the source: value font first on a
width failure, then label font, then both together on a height failure. -/
def fitStep (p : FitParams) (ls vs : ℕ) : Option (ℕ × ℕ) :=
  if fits_width p ls vs ∧ fits_height p ls then none
  else if ¬ fits_width p ls vs ∧ MIN_FONT < vs then some (ls, vs - 1)
  else if ¬ fits_width p ls vs ∧ MIN_FONT < ls then some (ls - 1, vs)
  else if ¬ fits_height p ls then
    if (if MIN_FONT < ls then ls - 1 else ls) = ls ∧
       (if MIN_FONT < vs then vs - 1 else vs) = vs then none
    else some (if MIN_FONT < ls then ls - 1 else ls, if MIN_FONT < vs then vs - 1 else vs)
  else none

/-- Fuel-indexed iteration of `fitStep`; every step strictly decreases the
size sum, so fuel `ls + vs` always suffices (`fitLoopF_fix`). -/
def fitLoopF (p : FitParams) : ℕ → ℕ × ℕ → ℕ × ℕ
  | 0, s => s
  | fuel + 1, s =>
    match fitStep p s.1 s.2 with
    | none => s
    | some s' => fitLoopF p fuel s'

/-- The state in which the shrink loop of `generate_image` exits, started
from label size `ls` and value size `vs`. -/
def fitLoop (p : FitParams) (ls vs : ℕ) : ℕ × ℕ := fitLoopF p (ls + vs) (ls, vs)

/-- Number of executions of the loop body (the final, breaking execution
included), fuel-indexed like `fitLoopF`. -/
def fitItersF (p : FitParams) : ℕ → ℕ × ℕ → ℕ
  | 0, _ => 1
  | fuel + 1, s =>
    match fitStep p s.1 s.2 with
    | none => 1
    | some s' => 1 + fitItersF p fuel s'

/-- Number of iterations the shrink loop performs from the given start. -/
def fitIters (p : FitParams) (ls vs : ℕ) : ℕ := fitItersF p (ls + vs) (ls, vs)

/-
The compare_app data layer: rows, column aliases, value resolution.
-/

/-- A pandas row: association list from column name to cell; a cell is
`none` for NaN/missing. -/
abbrev Row : Type := List (String × Option String)

/-- `row.get(col)`: `none` both for an absent column and a NaN cell. -/
def rowGet (r : Row) (c : String) : Option String :=
  match r.find? (fun p => p.1 == c) with
  | some p => p.2
  | none => none

/-- Membership of a column name in `row.index`. -/
def hasCol (r : Row) (c : String) : Bool := (r.find? (fun p => p.1 == c)).isSome

/-- The cell of a column that is known to exist (still `none` if NaN). -/
def getCell (r : Row) (c : String) : Option String := rowGet r c

/-- `COLUMN_ALIASES` of compare_app. -/
def COLUMN_ALIASES : String → List String
  | "Nettomarge" =>
    ["Nettomarge", "Net Margin", "Net Profit Margin", "Profit Margin",
     "profitMargins", "netProfitMargin", "netMargin"]
  | "Operative Marge" => ["Operative Marge", "Operating Margin", "operatingMargins"]
  | "Bruttomarge" => ["Bruttomarge", "Gross Margin", "grossMargins"]
  | "Marktkapitalisierung" =>
    ["Marktkapitalisierung", "Market Cap", "marketCap", "MarketCap"]
  | "Dividendenrendite" => ["Dividendenrendite", "Dividend Yield", "dividendYield"]
  | "Eigenkapitalrendite" =>
    ["Eigenkapitalrendite", "Return on Equity", "ROE", "returnOnEquity"]
  | "KGV" => ["KGV", "PE", "trailingPE"]
  | "Forward PE" => ["Forward PE", "forwardPE"]
  | "KUV" => ["KUV", "Price to Sales", "priceToSalesTrailing12Months"]
  | "Free Cashflow Yield" => ["Free Cashflow Yield", "freeCashflowYield", "fcfYield"]
  | "Analysten_Kursziel" =>
    ["Analysten_Kursziel", "Target Mean Price", "targetMeanPrice"]
  | "Preis" => ["Preis", "Close", "Last", "Vortagesschlusskurs"]
  | "Umsatzwachstum 10J" => ["Umsatzwachstum 10J", "Revenue Growth 10Y", "revenueGrowth10Y"]
  | "Umsatzwachstum 3J (erwartet)" =>
    ["Umsatzwachstum 3J (erwartet)", "Revenue Growth 3Y (fwd)", "revenueGrowth3YForward"]
  | _ => []

/-- compare_app `resolve_col`: the canonical key if its column exists, else
the first alias whose column exists. -/
def resolve_col (r : Row) (key : String) : Option String :=
  if hasCol r key then some key
  else (COLUMN_ALIASES key).find? (fun alt => hasCol r alt)

/-- compare_app `_to_float`:
`float(str(x).replace("%", "").replace(",", ".").replace(" ", ""))`, `none`
for `None`/NaN or a parse failure. -/
def to_float (x : Option String) : Option PyNum :=
  x.bind fun s =>
    parseNum (((s.toList.filter (· ≠ '%')).map
      (fun c => if c = ',' then '.' else c)).filter (· ≠ ' ')).asString

/-- compare_app `_get_val`: the raw cell behind a resolvable key. -/
def get_val (r : Row) (key : String) : Option String :=
  match resolve_col r key with
  | some col => getCell r col
  | none => none

/-- compare_app `PERCENT_KEYS`. -/
def PERCENT_KEYS : List String :=
  ["Dividendenrendite", "Ausschüttungsquote",
   "Bruttomarge", "Operative Marge", "Nettomarge",
   "Eigenkapitalrendite", "Return on Assets", "ROIC",
   "Free Cashflow Yield",
   "Umsatzwachstum", "Gewinnwachstum",
   "Umsatzwachstum 3J (erwartet)", "Umsatzwachstum 10J", "Umsatzwachstum 5J",
   "52Wochen Change", "Insider_Anteil", "Institutioneller_Anteil", "Short Interest"]

/-- The keys for which `has_value` insists on a parseable number. -/
def NUMERIC_CHECK_KEYS : List String :=
  ["KGV", "Forward PE", "KUV", "Marktkapitalisierung", "Operativer Cashflow",
   "Free Cashflow"]

/-- compare_app `has_value`: resolvable column, non-NaN, non-blank, not a
dash, and for the numeric/percent keys additionally parseable. -/
def has_value (r : Row) (key : String) : Bool :=
  match resolve_col r key with
  | none => false
  | some col =>
    match getCell r col with
    | none => false
    | some v =>
      let s := trimSpaces v.toList
      if s = [] ∨ s = ['–'] then false
      else if key ∈ NUMERIC_CHECK_KEYS ∨ key ∈ PERCENT_KEYS then
        (to_float (some v)).isSome
      else true

/-- compare_app `numeric_value`. -/
def numeric_value (key : String) (r : Row) : Option PyNum :=
  to_float (get_val r key)

/-
The scorer: `compare_metrics` and the badge-point aggregation of
`render_compare`.
-/

/-- compare_app `BETTER_LOW`. -/
def BETTER_LOW : List String := ["KGV", "Forward PE", "KUV", "Ausschüttungsquote"]

/-- The per-metric comparison of `compare_metrics`: `1` when the left row
wins, `-1` when the right row wins, `0` on a tie or when either value is
unresolvable. -/
def score1 (r1 r2 : Row) (key : String) : String × ℤ :=
  match numeric_value key r1, numeric_value key r2 with
  | some a, some b =>
    if key ∈ BETTER_LOW then
      (key, if a.toRat < b.toRat then 1 else if b.toRat < a.toRat then -1 else 0)
    else
      (key, if b.toRat < a.toRat then 1 else if a.toRat < b.toRat then -1 else 0)
  | _, _ => (key, 0)

/-- compare_app `compare_metrics`; the result dict (insertion ordered, and
called with the duplicate-free list from `select_metrics`) is modelled as an
association list over `metrics[:6]`. -/
def compare_metrics (r1 r2 : Row) (metrics : List String) : List (String × ℤ) :=
  (metrics.take 6).map (score1 r1 r2)

/-- One step of the badge-point loop of `render_compare`: a positive sign
gives the left side a point, a negative one the right side, and `0` gives
each side half a point. -/
def bstep (lr : ℚ × ℚ) (kv : String × ℤ) : ℚ × ℚ :=
  if 0 < kv.2 then (lr.1 + 1, lr.2)
  else if kv.2 < 0 then (lr.1, lr.2 + 1)
  else (lr.1 + 1 / 2, lr.2 + 1 / 2)

/-- The badge totals `(left_pts, right_pts)` of `render_compare`. -/
def badge_points (cmp : List (String × ℤ)) : ℚ × ℚ := cmp.foldl bstep (0, 0)

/-
Metric selection (`select_metrics`).
-/

/-- compare_app `SECTOR_METRICS`. -/
def SECTOR_METRICS : String → Option (List String)
  | "communication" =>
    some ["KGV", "KUV", "Nettomarge", "Operative Marge", "Bruttomarge",
          "Umsatzwachstum 10J"]
  | "information technology" =>
    some ["KGV", "Forward PE", "KUV", "Eigenkapitalrendite", "Free Cashflow Yield",
          "Umsatzwachstum 3J (erwartet)"]
  | "consumer discretionary" =>
    some ["KGV", "Forward PE", "KUV", "Operative Marge", "Eigenkapitalrendite",
          "Umsatzwachstum 3J (erwartet)"]
  | "consumer staples" =>
    some ["Dividendenrendite", "Ausschüttungsquote", "KGV", "Nettomarge",
          "Eigenkapitalrendite", "Umsatzwachstum 3J (erwartet)"]
  | "health care" =>
    some ["KGV", "KUV", "Nettomarge", "Bruttomarge", "Eigenkapitalrendite",
          "Umsatzwachstum 10J"]
  | "financials" =>
    some ["KGV", "KUV", "Eigenkapitalrendite", "Nettomarge", "Dividendenrendite",
          "Umsatzwachstum 10J"]
  | "industrials" =>
    some ["KGV", "KUV", "Operative Marge", "Eigenkapitalrendite",
          "Free Cashflow Yield", "Umsatzwachstum 10J"]
  | "materials" =>
    some ["KGV", "KUV", "Operative Marge", "Nettomarge", "Eigenkapitalrendite",
          "Umsatzwachstum 10J"]
  | "energy" =>
    some ["KGV", "KUV", "Nettomarge", "Free Cashflow Yield", "Dividendenrendite",
          "Umsatzwachstum 10J"]
  | "utilities" =>
    some ["Dividendenrendite", "Ausschüttungsquote", "KGV", "Nettomarge",
          "Free Cashflow Yield", "Umsatzwachstum 10J"]
  | "real estate" =>
    some ["Dividendenrendite", "Ausschüttungsquote", "KGV", "KUV", "Nettomarge",
          "Umsatzwachstum 10J"]
  | _ => none

/-- The default candidate list used when no sector matches. -/
def DEFAULT_BASE : List String :=
  ["KGV", "Forward PE", "KUV", "Nettomarge", "Eigenkapitalrendite",
   "Umsatzwachstum 3J (erwartet)"]

/-- The generic fallback catalog of `select_metrics`. -/
def sm_fallback : List String :=
  ["KGV", "Forward PE", "KUV", "Nettomarge", "Operative Marge", "Bruttomarge",
   "Eigenkapitalrendite", "Free Cashflow Yield", "Marktkapitalisierung",
   "Umsatzwachstum 3J (erwartet)", "Umsatzwachstum 10J", "Dividendenrendite"]

/-- The base candidate list: the requested metrics (blank entries dropped)
when the request is non-empty, else the sector defaults
(`SECTOR_METRICS.get(sec_key, default)`). -/
def sm_base (req : List String) (sec : Option String) : List String :=
  if req ≠ [] then req.filter (fun m => m.trim ≠ "")
  else
    match sec with
    | some k => (SECTOR_METRICS k).getD DEFAULT_BASE
    | none => DEFAULT_BASE

/-- `base + [k for k in fallback if k not in base]`. -/
def sm_candidates (req : List String) (sec : Option String) : List String :=
  sm_base req sec ++ sm_fallback.filter (fun k => k ∉ sm_base req sec)

/-- The deduplicated candidate order, restricted to keys whose column
resolves in at least one of the two rows. -/
def sm_order (r1 r2 : Row) (req : List String) (sec : Option String) : List String :=
  (sm_candidates req sec).foldl
    (fun acc key =>
      if key ∉ acc ∧ ((resolve_col r1 key).isSome ∨ (resolve_col r2 key).isSome)
      then acc ++ [key] else acc)
    []

/-- The partition loop of `select_metrics`: keys valued in both rows, and
keys valued in exactly one. -/
def sm_partition (r1 r2 : Row) (order : List String) : List String × List String :=
  order.foldl
    (fun be key =>
      if has_value r1 key && has_value r2 key then (be.1 ++ [key], be.2)
      else if has_value r1 key || has_value r2 key then (be.1, be.2 ++ [key])
      else be)
    ([], [])

/-- compare_app `select_metrics` (on the two rows of the renders list). -/
def select_metrics (r1 r2 : Row) (req : List String) (sec : Option String) :
    List String :=
  let order := sm_order r1 r2 req sec
  let pe := sm_partition r1 r2 order
  let sel := (pe.1 ++ pe.2).take 6
  if sel.length < 3 then (order.filter (fun k => k ∉ sel)).take 6 else sel

/-- Modelled from the claim wording (not from the source): the same
selection, except that when fewer than 3 keys were selected the result is
re-taken from the full fallback catalog, ignoring presence filtering. -/
def select_metrics_claimed (r1 r2 : Row) (req : List String) (sec : Option String) :
    List String :=
  let order := sm_order r1 r2 req sec
  let pe := sm_partition r1 r2 order
  let sel := (pe.1 ++ pe.2).take 6
  if sel.length < 3 then sm_fallback.take 6 else sel

/-
Chip sizing (`render_compare` chip-width table and `draw_company_card`).
-/

/-- The shared chip-width table entry of `render_compare` for one metric:
`max(textlength(t1), textlength(t2)) + 24` when positive, absent otherwise;
a missing (`"–"`) display string contributes width 0. -/
def chip_table_entry (measure : String → ℕ) (t1 t2 : String) : Option ℕ :=
  let tw1 := if t1 ≠ "" ∧ trimSpaces t1.toList ≠ ['–'] then measure t1 else 0
  let tw2 := if t2 ≠ "" ∧ trimSpaces t2.toList ≠ ['–'] then measure t2 else 0
  if 0 < max tw1 tw2 then some (max tw1 tw2 + 24) else none

/-- The chip width computed inside `draw_company_card` for one metric with
display text `val_txt`: own width + 24, raised to the shared table entry,
clamped to `max_chip_w`, then the label-preserving clamp.  The geometry
parameters (`content_w`, `max_chip_w = int(content_w*0.40)`,
`min_label_w = int(content_w*0.50)`, `floor30 = int(content_w*0.30)`) are
derived from the card rectangle and passed in; both cards get identical
values. -/
def chip_width_for (measure : String → ℕ) (entry : Option ℕ) (val_txt : String)
    (content_w max_chip_w min_label_w floor30 : ℕ) : ℕ :=
  let base_w := measure val_txt + 24
  let suggested := max base_w (entry.getD base_w)
  let cw := min suggested max_chip_w
  if content_w < cw + 16 + min_label_w then max floor30 (content_w - 16 - min_label_w)
  else cw

/-
Text trimming utilities of compare_app (`ellipsize_to_fit`,
`trim_numeric_text_to_fit`) and the stat pills.
-/

/-- The shrink loop of `ellipsize_to_fit`: drop trailing characters until
`s + "…"` fits; fuel `s.length` suffices since every pass drops one
character. -/
def ellipsizeDropF (measure : String → ℕ) (maxW : ℕ) : ℕ → List Char → List Char
  | 0, l => l
  | fuel + 1, l =>
    if l.isEmpty then l
    else if measure (l.asString ++ "…") ≤ maxW then l
    else ellipsizeDropF measure maxW fuel l.dropLast

/-- compare_app `ellipsize_to_fit`. -/
def ellipsize_to_fit (measure : String → ℕ) (s : String) (maxW : ℕ) : String :=
  if measure s ≤ maxW then s
  else (ellipsizeDropF measure maxW s.toList.length s.toList).asString ++ "…"

/-- Left-to-right scan for the matches of the pattern `(\d+),(\d+)` (the
lookahead of the source pattern is always satisfied after a greedy digit
run), as `re.finditer` produces them; each element is
(start of group 1, its length, start of group 2, its length). -/
def scanDecF : ℕ → ℕ → List Char → List (ℕ × ℕ × ℕ × ℕ)
  | 0, _, _ => []
  | _, _, [] => []
  | fuel + 1, i, c :: rest =>
    if c.isDigit then
      let d1 := ((c :: rest).takeWhile Char.isDigit).length
      match (c :: rest).dropWhile Char.isDigit with
      | ',' :: r2 =>
        let d2 := (r2.takeWhile Char.isDigit).length
        if d2 = 0 then scanDecF fuel (i + 1) rest
        else (i, d1, i + d1 + 1, d2) :: scanDecF fuel (i + d1 + 1 + d2) (r2.drop d2)
      | _ => scanDecF fuel (i + 1) rest
    else scanDecF fuel (i + 1) rest

/-- Entry point for the match scan; every recursion step consumes at least
one character, so fuel equal to the length suffices. -/
def scanDec (l : List Char) : List (ℕ × ℕ × ℕ × ℕ) := scanDecF l.length 0 l

/-- One decimal-shortening step of `trim_numeric_text_to_fit`: shorten the
fractional group of the last `(\d+),(\d+)` match by one digit, removing the
comma too when only one digit remains; `none` when there is no match. -/
def trimStep (l : List Char) : Option (List Char) :=
  match (scanDec l).getLast? with
  | none => none
  | some (s1, l1, s2, l2) =>
    if 1 < l2 then some (l.take (s2 + l2 - 1) ++ l.drop (s2 + l2))
    else some (l.take (s1 + l1) ++ l.drop (s2 + l2))

/-- The `while` loop of `trim_numeric_text_to_fit`; every step removes at
least one character, so fuel `l.length` suffices. -/
def trimLoopF (measure : String → ℕ) (maxW : ℕ) : ℕ → List Char → List Char
  | 0, l => l
  | fuel + 1, l =>
    if measure l.asString ≤ maxW then l
    else
      match trimStep l with
      | none => l
      | some l' => trimLoopF measure maxW fuel l'

/-- compare_app `trim_numeric_text_to_fit`. -/
def trim_numeric_text_to_fit (measure : String → ℕ) (s : String) (maxW : ℕ) :
    String :=
  if measure s ≤ maxW then s
  else
    let t := trimLoopF measure maxW s.toList.length s.toList
    if measure t.asString ≤ maxW then t.asString
    else ellipsize_to_fit measure t.asString maxW

/-- compare_app `CURRENCY_SYMBOL.get(cur, cur or "$")`. -/
def CURRENCY_SYMBOL (cur : String) : String :=
  match cur with
  | "USD" => "$"
  | "EUR" => "€"
  | "GBP" => "£"
  | "JPY" => "¥"
  | "CHF" => "CHF"
  | "CAD" => "C$"
  | "AUD" => "A$"
  | "HKD" => "HK$"
  | "INR" => "₹"
  | _ => if cur = "" then "$" else cur

/-- compare_app `fcur`: symbol before the amount for the four prefixable
currencies, after it otherwise. -/
def fcur (x : PyNum) (sym : String) (dec : ℕ) : String :=
  if sym = "$" ∨ sym = "€" ∨ sym = "£" ∨ sym = "¥" then sym ++ fmt_locale_cmp x dec
  else fmt_locale_cmp x dec ++ sym

/-- Palette colors used by the pills (RGB). -/
def COLOR_TEXT : ℕ × ℕ × ℕ := (20, 24, 28)

/-- Muted label color. -/
def COLOR_MUTED : ℕ × ℕ × ℕ := (95, 103, 112)

/-- Green. -/
def COLOR_BETTER : ℕ × ℕ × ℕ := (17, 146, 74)

/-- Red. -/
def COLOR_WORSE : ℕ × ℕ × ℕ := (196, 59, 43)

/-- compare_app `_price_target_data`: previous close and mean analyst
target, `none` when either is unresolvable or the price is not positive.
A NaN currency cell is modelled as the empty string. -/
def price_target_data (r : Row) : Option (PyNum × PyNum × String) :=
  match to_float (rowGet r "Vortagesschlusskurs"),
        to_float (rowGet r "Analysten_Kursziel") with
  | some p, some t =>
    if p.toRat ≤ 0 then none
    else some (p, t, ((rowGet r "Währung").getD "").toUpper)
  | _, _ => none

/-- One text drawn by `draw.text`: the string and its fill color. -/
structure DrawnText where
  text : String
  color : ℕ × ℕ × ℕ
deriving DecidableEq

/-- compare_app `draw_stat_pills`, modelled as the advanced baseline and the
sequence of texts drawn (label then value per pill, three pills).  `w` is
the per-pill width the caller's geometry produces, `valSize` the value font
size; positions are not modelled. -/
def draw_stat_pills (measure : String → ℕ) (r : Row) (y : ℤ) (w valSize : ℕ) :
    ℤ × List DrawnText :=
  match price_target_data r with
  | none => (y, [])
  | some (price, target, cur) =>
    let sym := CURRENCY_SYMBOL cur
    let pot : ℚ := (target.toRat / price.toRat - 1) * 100
    let arrow : String := if 0 ≤ pot then "▲" else "▼"
    let potTxt : String := arrow ++ " " ++ fmt_locale_cmp (pyOfRat pot) 1 ++ "%"
    let pill_h : ℤ := (valSize : ℤ) * 2 + 10
    (y + pill_h,
     [⟨"Kurs", COLOR_MUTED⟩,
      ⟨trim_numeric_text_to_fit measure (fcur price sym 0) (w - 20), COLOR_TEXT⟩,
      ⟨"Ziel", COLOR_MUTED⟩,
      ⟨trim_numeric_text_to_fit measure (fcur target sym 0) (w - 20), COLOR_TEXT⟩,
      ⟨"Pot.", COLOR_MUTED⟩,
      ⟨trim_numeric_text_to_fit measure potTxt (w - 20), COLOR_TEXT⟩])

/-- A concrete measurement environment for witnesses. -/
def fitParamsEx : FitParams := ⟨fun _ => 100, fun s => 8 * s, 4, 700⟩

/-- A measurement environment in which the widest value never fits: the
loop bottoms out at the `MIN_FONT` floor with the width constraint still
violated. -/
def fitParamsWide : FitParams := ⟨fun _ => 0, fun _ => 1000, 0, 0⟩

/-- The row of the C8 counterexample: positive price, lower target. -/
def rowNegPot : Row :=
  [("Vortagesschlusskurs", some "100"), ("Analysten_Kursziel", some "50"),
   ("Währung", some "USD")]

/-- The row of the C8 witness: positive price, higher target. -/
def rowPosPot : Row :=
  [("Vortagesschlusskurs", some "100"), ("Analysten_Kursziel", some "120"),
   ("Währung", some "EUR")]

/-- A row whose price is zero (C10 witness). -/
def rowZeroPrice : Row :=
  [("Vortagesschlusskurs", some "0"), ("Analysten_Kursziel", some "5")]

/-- Both rows have a resolvable numeric value for the key. -/
def presentBoth (r1 r2 : Row) (k : String) : Bool :=
  (numeric_value k r1).isSome && (numeric_value k r2).isSome

/-- Row with a KGV value (C7 counterexample). -/
def cexRowKGV : Row := [("KGV", some "5")]

/-- Row with a NaN KGV cell (C7 counterexample). -/
def cexRowNoKGV : Row := [("KGV", (none : Option String))]

/-! Theorems. -/

theorem fitStep_some {p : FitParams} {ls vs ls' vs' : ℕ}
    (h : fitStep p ls vs = some (ls', vs')) :
    ls' ≤ ls ∧ vs' ≤ vs ∧ ls' + vs' < ls + vs ∧
      (MIN_FONT ≤ ls → MIN_FONT ≤ ls') ∧ (MIN_FONT ≤ vs → MIN_FONT ≤ vs') := by
  have hM : MIN_FONT = 22 := rfl
  unfold fitStep at h
  by_cases hfw : fits_width p ls vs <;> by_cases hfh : fits_height p ls <;>
    (try simp [hfw, hfh] at h) <;>
    (try split_ifs at h) <;>
    (try exact Option.noConfusion h) <;>
    (try simp only [Option.some.injEq, Prod.mk.injEq] at h) <;>
    omega

theorem fitStep_none {p : FitParams} {ls vs : ℕ}
    (h : fitStep p ls vs = none) :
    fits_width p ls vs ∨ (ls ≤ MIN_FONT ∧ vs ≤ MIN_FONT) := by
  have hM : MIN_FONT = 22 := rfl
  by_cases hfw : fits_width p ls vs
  · exact Or.inl hfw
  · unfold fitStep at h
    by_cases hfh : fits_height p ls <;>
      (try simp [hfw, hfh] at h) <;>
      (try split_ifs at h) <;>
      (try exact Option.noConfusion h) <;>
      (try exact Or.inr (by omega))


theorem fitStep_zero (p : FitParams) : fitStep p 0 0 = none := by
  have hM : MIN_FONT = 22 := rfl
  unfold fitStep
  by_cases hfw : fits_width p 0 0 <;> by_cases hfh : fits_height p 0 <;>
    simp [hfw, hfh] <;> omega

theorem fitLoopF_fix (p : FitParams) :
    ∀ (fuel : ℕ) (s : ℕ × ℕ), s.1 + s.2 ≤ fuel →
      fitStep p (fitLoopF p fuel s).1 (fitLoopF p fuel s).2 = none := by
  intro fuel
  induction fuel with
  | zero =>
    intro s hs
    obtain ⟨ls, vs⟩ := s
    simp at hs
    obtain ⟨h1, h2⟩ := hs
    subst h1; subst h2
    simpa [fitLoopF] using fitStep_zero p
  | succ n ih =>
    intro s hs
    rcases hstep : fitStep p s.1 s.2 with - | s'
    · simpa [fitLoopF, hstep] using hstep
    · obtain ⟨ls', vs'⟩ := s'
      have hlt := fitStep_some hstep
      have : (ls', vs').1 + (ls', vs').2 ≤ n := by simp; omega
      simpa [fitLoopF, hstep] using ih (ls', vs') this

theorem fitLoopF_le (p : FitParams) :
    ∀ (fuel : ℕ) (s : ℕ × ℕ),
      (fitLoopF p fuel s).1 ≤ s.1 ∧ (fitLoopF p fuel s).2 ≤ s.2 := by
  intro fuel
  induction fuel with
  | zero => intro s; simp [fitLoopF]
  | succ n ih =>
    intro s
    rcases hstep : fitStep p s.1 s.2 with - | s'
    · simp [fitLoopF, hstep]
    · obtain ⟨ls', vs'⟩ := s'
      have hlt := fitStep_some hstep
      have h2 := ih (ls', vs')
      simp only [fitLoopF, hstep]
      constructor
      · exact le_trans h2.1 (by simpa using hlt.1)
      · exact le_trans h2.2 (by simpa using hlt.2.1)

theorem fitLoopF_min (p : FitParams) :
    ∀ (fuel : ℕ) (s : ℕ × ℕ), MIN_FONT ≤ s.1 → MIN_FONT ≤ s.2 →
      MIN_FONT ≤ (fitLoopF p fuel s).1 ∧ MIN_FONT ≤ (fitLoopF p fuel s).2 := by
  intro fuel
  induction fuel with
  | zero => intro s h1 h2; simpa [fitLoopF] using ⟨h1, h2⟩
  | succ n ih =>
    intro s h1 h2
    rcases hstep : fitStep p s.1 s.2 with - | s'
    · simpa [fitLoopF, hstep] using ⟨h1, h2⟩
    · obtain ⟨ls', vs'⟩ := s'
      have hlt := fitStep_some hstep
      have h3 := ih (ls', vs') (by simpa using hlt.2.2.2.1 h1) (by simpa using hlt.2.2.2.2 h2)
      simpa [fitLoopF, hstep] using h3

theorem fitItersF_le (p : FitParams) :
    ∀ (fuel : ℕ) (s : ℕ × ℕ), MIN_FONT ≤ s.1 → MIN_FONT ≤ s.2 → s.1 + s.2 ≤ fuel →
      fitItersF p fuel s ≤ (s.1 - MIN_FONT) + (s.2 - MIN_FONT) + 1 := by
  have hM : MIN_FONT = 22 := rfl
  intro fuel
  induction fuel with
  | zero =>
    intro s h1 h2 hs
    omega
  | succ n ih =>
    intro s h1 h2 hs
    rcases hstep : fitStep p s.1 s.2 with - | s'
    · simp only [fitItersF, hstep]
      omega
    · obtain ⟨ls', vs'⟩ := s'
      have hlt := fitStep_some hstep
      have h3 := ih (ls', vs') (by simpa using hlt.2.2.2.1 h1) (by simpa using hlt.2.2.2.2 h2)
        (by simp; omega)
      simp only [fitItersF, hstep]
      simp at h3
      omega



/-- C1 counterexample: with values too wide to ever fit, the shrink loop of
`generate_image` exits at the font floor with the widest value still wider
than the value column, so the claimed no-overflow invariant fails. -/
theorem c1_counterexample :
    ¬ fits_width fitParamsWide (fitLoop fitParamsWide LABEL_SZ LABEL_SZ).1
        (fitLoop fitParamsWide LABEL_SZ LABEL_SZ).2 := by decide

/-- C1 (amended): after the shrink loop exits, label width plus value width
always equals the column width; the widest formatted value fits the value
column unless both font sizes have reached the `MIN_FONT` floor with the
width constraint still violated; and whenever the width constraint holds
and the longest label plus its 18px padding is within the label cap, label
text plus value text plus padding fit the column. -/
theorem c1_no_overflow (p : FitParams) (ls vs : ℕ)
    (hls : MIN_FONT ≤ ls) (hvs : MIN_FONT ≤ vs) :
    label_w_of p (fitLoop p ls vs).1 + value_w_of p (fitLoop p ls vs).1 = col_w ∧
    (fits_width p (fitLoop p ls vs).1 (fitLoop p ls vs).2 ∨
      ((fitLoop p ls vs).1 = MIN_FONT ∧ (fitLoop p ls vs).2 = MIN_FONT)) ∧
    (fits_width p (fitLoop p ls vs).1 (fitLoop p ls vs).2 →
      p.maxLabelPx (fitLoop p ls vs).1 + 18 ≤ label_cap →
      p.maxLabelPx (fitLoop p ls vs).1 + p.maxValPx (fitLoop p ls vs).2 + 18 ≤ col_w) := by
  have hfix := fitLoopF_fix p (ls + vs) (ls, vs) (by omega)
  have hmin := fitLoopF_min p (ls + vs) (ls, vs) hls hvs
  rw [show fitLoop p ls vs = fitLoopF p (ls + vs) (ls, vs) from rfl]
  have hcw : col_w = 449 := rfl
  have hcap : label_cap = 323 := rfl
  have hM : MIN_FONT = 22 := rfl
  refine ⟨?_, ?_, ?_⟩
  · have h1 : label_w_of p (fitLoopF p (ls + vs) (ls, vs)).1 ≤ label_cap := min_le_left _ _
    unfold value_w_of
    omega
  · rcases fitStep_none hfix with hfw | hmm
    · exact Or.inl hfw
    · exact Or.inr ⟨by omega, by omega⟩
  · intro hfw hlab
    have hval : p.maxValPx (fitLoopF p (ls + vs) (ls, vs)).2 ≤
        value_w_of p (fitLoopF p (ls + vs) (ls, vs)).1 := hfw
    have hlw : label_w_of p (fitLoopF p (ls + vs) (ls, vs)).1 =
        p.maxLabelPx (fitLoopF p (ls + vs) (ls, vs)).1 + 18 := by
      unfold label_w_of
      omega
    unfold value_w_of at hval
    rw [hlw] at hval
    omega

/-- C1 witness: the amended statement evaluated in a concrete measurement
environment at the source's initial font size. -/
theorem c1_no_overflow_witness :
    MIN_FONT ≤ LABEL_SZ ∧
    (label_w_of fitParamsEx (fitLoop fitParamsEx LABEL_SZ LABEL_SZ).1 +
        value_w_of fitParamsEx (fitLoop fitParamsEx LABEL_SZ LABEL_SZ).1 = col_w ∧
      (fits_width fitParamsEx (fitLoop fitParamsEx LABEL_SZ LABEL_SZ).1
          (fitLoop fitParamsEx LABEL_SZ LABEL_SZ).2 ∨
        ((fitLoop fitParamsEx LABEL_SZ LABEL_SZ).1 = MIN_FONT ∧
          (fitLoop fitParamsEx LABEL_SZ LABEL_SZ).2 = MIN_FONT)) ∧
      (fits_width fitParamsEx (fitLoop fitParamsEx LABEL_SZ LABEL_SZ).1
          (fitLoop fitParamsEx LABEL_SZ LABEL_SZ).2 →
        fitParamsEx.maxLabelPx (fitLoop fitParamsEx LABEL_SZ LABEL_SZ).1 + 18 ≤ label_cap →
        fitParamsEx.maxLabelPx (fitLoop fitParamsEx LABEL_SZ LABEL_SZ).1 +
          fitParamsEx.maxValPx (fitLoop fitParamsEx LABEL_SZ LABEL_SZ).2 + 18 ≤ col_w)) :=
  ⟨by decide, c1_no_overflow fitParamsEx LABEL_SZ LABEL_SZ (by decide) (by decide)⟩

/-- C2: the shrink loop terminates in at most
(initial label size - MIN_FONT) + (initial value size - MIN_FONT) + 1
iterations, and on exit both font sizes are between the `MIN_FONT` floor
and their initial values. -/
theorem c2_fit_loop_terminates (p : FitParams) (ls vs : ℕ)
    (hls : MIN_FONT ≤ ls) (hvs : MIN_FONT ≤ vs) :
    fitIters p ls vs ≤ (ls - MIN_FONT) + (vs - MIN_FONT) + 1 ∧
    MIN_FONT ≤ (fitLoop p ls vs).1 ∧ (fitLoop p ls vs).1 ≤ ls ∧
    MIN_FONT ≤ (fitLoop p ls vs).2 ∧ (fitLoop p ls vs).2 ≤ vs := by
  have h1 := fitItersF_le p (ls + vs) (ls, vs) hls hvs (by omega)
  have h2 := fitLoopF_min p (ls + vs) (ls, vs) hls hvs
  have h3 := fitLoopF_le p (ls + vs) (ls, vs)
  exact ⟨h1, h2.1, h3.1, h2.2, h3.2⟩

/-- C2 witness: concrete iteration count and font-size bounds at the
source's initial size 39. -/
theorem c2_fit_loop_terminates_witness :
    MIN_FONT ≤ LABEL_SZ ∧
    (fitIters fitParamsEx LABEL_SZ LABEL_SZ ≤
        (LABEL_SZ - MIN_FONT) + (LABEL_SZ - MIN_FONT) + 1 ∧
      MIN_FONT ≤ (fitLoop fitParamsEx LABEL_SZ LABEL_SZ).1 ∧
      (fitLoop fitParamsEx LABEL_SZ LABEL_SZ).1 ≤ LABEL_SZ ∧
      MIN_FONT ≤ (fitLoop fitParamsEx LABEL_SZ LABEL_SZ).2 ∧
      (fitLoop fitParamsEx LABEL_SZ LABEL_SZ).2 ≤ LABEL_SZ) :=
  ⟨by decide, c2_fit_loop_terminates fitParamsEx LABEL_SZ LABEL_SZ (by decide) (by decide)⟩



/-- C3: for a metric displayable on both cards, the chip width computed
inside `draw_company_card` for entity A equals the one computed for entity
B, given the same card geometry and the shared chip-width table of
`render_compare`. -/
theorem c3_chip_width_equal (measure : String → ℕ) (t1 t2 : String)
    (content_w max_chip_w min_label_w floor30 : ℕ)
    (h1 : t1 ≠ "" ∧ trimSpaces t1.toList ≠ ['–'])
    (h2 : t2 ≠ "" ∧ trimSpaces t2.toList ≠ ['–']) :
    chip_width_for measure (chip_table_entry measure t1 t2) t1
        content_w max_chip_w min_label_w floor30 =
      chip_width_for measure (chip_table_entry measure t1 t2) t2
        content_w max_chip_w min_label_w floor30 := by
  unfold chip_width_for chip_table_entry
  simp only [if_pos h1, if_pos h2]
  by_cases hmx : 0 < max (measure t1) (measure t2)
  · simp only [if_pos hmx, Option.getD_some]
    have e1 : max (measure t1 + 24) (max (measure t1) (measure t2) + 24) =
        max (measure t1) (measure t2) + 24 := by omega
    have e2 : max (measure t2 + 24) (max (measure t1) (measure t2) + 24) =
        max (measure t1) (measure t2) + 24 := by omega
    rw [e1, e2]
  · simp only [if_neg hmx, Option.getD_none]
    have hz1 : measure t1 = 0 := by omega
    have hz2 : measure t2 = 0 := by omega
    rw [hz1, hz2]

/-- C3 witness: the equality evaluated on concrete display strings. -/
theorem c3_chip_width_equal_witness :
    (("4,2%" : String) ≠ "" ∧ trimSpaces ("4,2%" : String).toList ≠ ['–']) ∧
    (("57%" : String) ≠ "" ∧ trimSpaces ("57%" : String).toList ≠ ['–']) ∧
    chip_width_for String.length (chip_table_entry String.length "4,2%" "57%") "4,2%"
        380 152 190 114 =
      chip_width_for String.length (chip_table_entry String.length "4,2%" "57%") "57%"
        380 152 190 114 :=
  ⟨⟨by decide, by decide⟩, ⟨by decide, by decide⟩,
    c3_chip_width_equal String.length "4,2%" "57%" 380 152 190 114
      ⟨by decide, by decide⟩ ⟨by decide, by decide⟩⟩




/-- C10: `draw_stat_pills` never divides by zero: whenever price or target
is unresolvable, or the price is not positive, `_price_target_data` is
`None`, the pills draw nothing and return `y` unchanged; and the division
`target/price` is only reached with a strictly positive price. -/
theorem c10_no_div_by_zero (r : Row) :
    ((to_float (rowGet r "Vortagesschlusskurs") = none ∨
        to_float (rowGet r "Analysten_Kursziel") = none ∨
        (∃ p, to_float (rowGet r "Vortagesschlusskurs") = some p ∧ p.toRat ≤ 0)) →
      price_target_data r = none) ∧
    (price_target_data r = none →
      ∀ (measure : String → ℕ) (y : ℤ) (w valSize : ℕ),
        draw_stat_pills measure r y w valSize = (y, [])) ∧
    (∀ p t c, price_target_data r = some (p, t, c) → 0 < p.toRat) := by
  refine ⟨?_, ?_, ?_⟩
  · intro h
    unfold price_target_data
    rcases hp : to_float (rowGet r "Vortagesschlusskurs") with - | p
    · rfl
    · rcases ht : to_float (rowGet r "Analysten_Kursziel") with - | t
      · rfl
      · rcases h with h | h | ⟨q, hq1, hq2⟩
        · rw [hp] at h
          exact Option.noConfusion h
        · rw [ht] at h
          exact Option.noConfusion h
        · rw [hp, Option.some.injEq] at hq1
          subst hq1
          simp [hq2]
  · intro h measure y w valSize
    unfold draw_stat_pills
    rw [h]
  · intro p t c h
    unfold price_target_data at h
    rcases hp : to_float (rowGet r "Vortagesschlusskurs") with - | p'
    · rw [hp] at h
      exact Option.noConfusion h
    · rcases ht : to_float (rowGet r "Analysten_Kursziel") with - | t'
      · rw [hp, ht] at h
        exact Option.noConfusion h
      · rw [hp, ht] at h
        have h2 : (if p'.toRat ≤ 0 then none
            else some (p', t', ((rowGet r "Währung").getD "").toUpper)) =
            some (p, t, c) := h
        by_cases hle : p'.toRat ≤ 0
        · rw [if_pos hle] at h2
          exact Option.noConfusion h2
        · rw [if_neg hle] at h2
          rw [Option.some.injEq] at h2
          have hpp : p' = p := congrArg Prod.fst h2
          rw [hpp] at hle
          exact not_le.mp hle

/-- C10 witness: a zero price yields no pill block and an unchanged
baseline. -/
theorem c10_no_div_by_zero_witness :
    price_target_data rowZeroPrice = none ∧
    draw_stat_pills (fun _ => 0) rowZeroPrice 7 100 20 = (7, []) := by
  have h := c10_no_div_by_zero rowZeroPrice
  have hz : to_float (rowGet rowZeroPrice "Vortagesschlusskurs") =
      some ⟨false, 0⟩ := by
    with_unfolding_all decide
  have h1 : price_target_data rowZeroPrice = none :=
    h.1 (Or.inr (Or.inr ⟨⟨false, 0⟩, hz, by with_unfolding_all decide⟩))
  exact ⟨h1, h.2.1 h1 (fun _ => 0) 7 100 20⟩

/-- C8 counterexample: a strictly negative potential is drawn in the fixed
text color, not red; the potential pill text is never recolored by sign. -/
theorem c8_counterexample :
    ((draw_stat_pills (fun _ => 0) rowNegPot 0 100 20).2.getLast? =
      some ⟨"▼ -50%", COLOR_TEXT⟩) ∧
    ((50 : ℚ) / 100 - 1) * 100 < 0 ∧ COLOR_TEXT ≠ COLOR_WORSE := by
  refine ⟨?_, by norm_num, by decide⟩
  have hptd : price_target_data rowNegPot = some (⟨false, 100⟩, ⟨false, 50⟩, "USD") := by
    with_unfolding_all decide
  unfold draw_stat_pills
  rw [hptd]
  simp only [List.getLast?_cons_cons, List.getLast?_singleton, Option.some.injEq,
    DrawnText.mk.injEq]
  refine ⟨?_, trivial⟩
  with_unfolding_all decide

/-- C8 (amended): for every row with resolvable positive price and
resolvable target, the third pill's value text renders
`(target/price - 1) * 100` percent with a direction arrow (up for
non-negative, down for negative), but it is drawn in the fixed text color
`COLOR_TEXT` regardless of sign. -/
theorem c8_potential_pill (measure : String → ℕ) (r : Row) (y : ℤ) (w valSize : ℕ)
    (p t : PyNum) (c : String)
    (h : price_target_data r = some (p, t, c)) :
    (draw_stat_pills measure r y w valSize).2.getLast? =
      some ⟨trim_numeric_text_to_fit measure
              ((if 0 ≤ (t.toRat / p.toRat - 1) * 100 then "▲" else "▼") ++ " " ++
                fmt_locale_cmp (pyOfRat ((t.toRat / p.toRat - 1) * 100)) 1 ++ "%")
              (w - 20),
            COLOR_TEXT⟩ := by
  unfold draw_stat_pills
  rw [h]
  rfl

/-- C8 witness: the amended statement evaluated at a row with positive
potential. -/
theorem c8_potential_pill_witness :
    price_target_data rowPosPot = some (⟨false, 100⟩, ⟨false, 120⟩, "EUR") ∧
    (draw_stat_pills (fun _ => 0) rowPosPot 0 100 20).2.getLast? =
      some ⟨trim_numeric_text_to_fit (fun _ => 0)
              ((if 0 ≤ ((PyNum.mk false 120).toRat / (PyNum.mk false 100).toRat - 1) * 100
                then "▲" else "▼") ++ " " ++
                fmt_locale_cmp (pyOfRat
                  (((PyNum.mk false 120).toRat / (PyNum.mk false 100).toRat - 1) * 100)) 1 ++
                "%")
              (100 - 20),
            COLOR_TEXT⟩ := by
  have hptd : price_target_data rowPosPot = some (⟨false, 100⟩, ⟨false, 120⟩, "EUR") := by
    with_unfolding_all decide
  exact ⟨hptd,
    c8_potential_pill (fun _ => 0) rowPosPot 0 100 20 ⟨false, 100⟩ ⟨false, 120⟩ "EUR" hptd⟩






theorem bstep_shift (a b : ℚ) (kv : String × ℤ) :
    bstep (a, b) kv = (a + (bstep (0, 0) kv).1, b + (bstep (0, 0) kv).2) := by
  unfold bstep
  split_ifs <;> simp

theorem badge_shift (l : List (String × ℤ)) :
    ∀ a b : ℚ, l.foldl bstep (a, b) =
      (a + (badge_points l).1, b + (badge_points l).2) := by
  induction l with
  | nil =>
    intro a b
    simp [badge_points, List.foldl]
  | cons kv l ih =>
    intro a b
    have hb : badge_points (kv :: l) = List.foldl bstep (bstep (0, 0) kv) l := rfl
    show List.foldl bstep (bstep (a, b) kv) l = _
    rw [hb, bstep_shift a b kv]
    rcases hs : bstep (0, 0) kv with ⟨c, d⟩
    rw [ih, ih]
    rw [Prod.ext_iff]
    constructor <;> simp <;> ring

theorem score1_absent {r1 r2 : Row} {k : String}
    (h : numeric_value k r1 = none ∨ numeric_value k r2 = none) :
    score1 r1 r2 k = (k, 0) := by
  unfold score1
  rcases h with h | h
  · rw [h]
  · rw [h]
    rcases h1 : numeric_value k r1 with - | a
    · rfl
    · rfl

theorem badge_points_filter (r1 r2 : Row) (l : List String) :
    badge_points (l.map (score1 r1 r2)) =
      ((badge_points ((l.filter (presentBoth r1 r2)).map (score1 r1 r2))).1 +
          ((l.filter (fun k => ! presentBoth r1 r2 k)).length : ℚ) / 2,
        (badge_points ((l.filter (presentBoth r1 r2)).map (score1 r1 r2))).2 +
          ((l.filter (fun k => ! presentBoth r1 r2 k)).length : ℚ) / 2) := by
  induction l with
  | nil => simp [badge_points, List.foldl]
  | cons k l ih =>
    by_cases hp : presentBoth r1 r2 k
    · have hf1 : (k :: l).filter (presentBoth r1 r2) = k :: l.filter (presentBoth r1 r2) := by
        simp [List.filter, hp]
      have hf2 : (k :: l).filter (fun k => ! presentBoth r1 r2 k) =
          l.filter (fun k => ! presentBoth r1 r2 k) := by
        simp [List.filter, hp]
      rw [hf1, hf2, List.map_cons, List.map_cons]
      have e1 : badge_points (score1 r1 r2 k :: l.map (score1 r1 r2)) =
          List.foldl bstep (bstep (0, 0) (score1 r1 r2 k)) (l.map (score1 r1 r2)) := rfl
      have e2 : badge_points (score1 r1 r2 k ::
            (l.filter (presentBoth r1 r2)).map (score1 r1 r2)) =
          List.foldl bstep (bstep (0, 0) (score1 r1 r2 k))
            ((l.filter (presentBoth r1 r2)).map (score1 r1 r2)) := rfl
      rw [e1, e2, badge_shift, badge_shift, ih]
      rw [Prod.ext_iff]
      constructor <;> simp <;> ring
    · have hf1 : (k :: l).filter (presentBoth r1 r2) = l.filter (presentBoth r1 r2) := by
        simp [List.filter, hp]
      have hf2 : (k :: l).filter (fun k => ! presentBoth r1 r2 k) =
          k :: l.filter (fun k => ! presentBoth r1 r2 k) := by
        simp [List.filter, hp]
      have habs : score1 r1 r2 k = (k, 0) := by
        apply score1_absent
        unfold presentBoth at hp
        rcases h1 : numeric_value k r1 with - | a
        · exact Or.inl rfl
        · rcases h2 : numeric_value k r2 with - | b
          · exact Or.inr rfl
          · exact absurd (by rw [h1, h2]; rfl) hp
      rw [hf1, hf2, List.map_cons]
      have e1 : badge_points (score1 r1 r2 k :: l.map (score1 r1 r2)) =
          List.foldl bstep (bstep (0, 0) (score1 r1 r2 k)) (l.map (score1 r1 r2)) := rfl
      rw [e1, badge_shift, habs, ih]
      have hb0 : bstep (0, 0) (k, 0) = (1 / 2, 1 / 2) := by
        unfold bstep
        norm_num
      rw [hb0]
      rw [Prod.ext_iff]
      constructor <;> simp <;> ring

/-- C7 counterexample: a metric whose value is missing in one row does
change the aggregate totals — the badge loop credits 0.5 points to each
side for it instead of skipping it. -/
theorem c7_counterexample :
    numeric_value "KGV" cexRowNoKGV = none ∧
    badge_points (compare_metrics cexRowKGV cexRowNoKGV ["KGV"]) = (1 / 2, 1 / 2) ∧
    badge_points (compare_metrics cexRowKGV cexRowNoKGV ["KGV"]) ≠
      badge_points (compare_metrics cexRowKGV cexRowNoKGV []) := by
  refine ⟨by with_unfolding_all decide, by with_unfolding_all decide,
    by with_unfolding_all decide⟩

/-- C7 (amended): a selected metric missing a resolvable value in either
row scores 0, and the badge aggregation credits 0.5 points to each side for
every such metric (instead of skipping it); the totals equal the totals
over the fully-present metrics plus half the number of not-fully-present
selected metrics on each side, so the difference between the totals is
unchanged. -/
theorem c7_absent_metrics_score (r1 r2 : Row) (ms : List String) :
    (∀ k ∈ ms.take 6, numeric_value k r1 = none ∨ numeric_value k r2 = none →
      score1 r1 r2 k = (k, 0)) ∧
    badge_points (compare_metrics r1 r2 ms) =
      ((badge_points (compare_metrics r1 r2 ((ms.take 6).filter (presentBoth r1 r2)))).1 +
          (((ms.take 6).filter (fun k => ! presentBoth r1 r2 k)).length : ℚ) / 2,
        (badge_points (compare_metrics r1 r2 ((ms.take 6).filter (presentBoth r1 r2)))).2 +
          (((ms.take 6).filter (fun k => ! presentBoth r1 r2 k)).length : ℚ) / 2) := by
  constructor
  · intro k _ h
    exact score1_absent h
  · have hlen : ((ms.take 6).filter (presentBoth r1 r2)).length ≤ 6 :=
      le_trans (List.length_filter_le _ _) (by simpa using List.length_take_le 6 ms)
    have htake : ((ms.take 6).filter (presentBoth r1 r2)).take 6 =
        (ms.take 6).filter (presentBoth r1 r2) := List.take_of_length_le hlen
    unfold compare_metrics
    rw [htake]
    exact badge_points_filter r1 r2 (ms.take 6)

/-- C7 witness: the amended scoring behavior evaluated on a concrete pair
of rows with one absent KGV value. -/
theorem c7_absent_metrics_score_witness :
    (("KGV" : String) ∈ (["KGV"] : List String).take 6 ∧
      numeric_value "KGV" cexRowNoKGV = none) ∧
    score1 cexRowKGV cexRowNoKGV "KGV" = ("KGV", 0) ∧
    badge_points (compare_metrics cexRowKGV cexRowNoKGV ["KGV"]) =
      ((badge_points (compare_metrics cexRowKGV cexRowNoKGV
          (((["KGV"] : List String).take 6).filter (presentBoth cexRowKGV cexRowNoKGV)))).1 +
          (((((["KGV"] : List String).take 6)).filter
            (fun k => ! presentBoth cexRowKGV cexRowNoKGV k)).length : ℚ) / 2,
        (badge_points (compare_metrics cexRowKGV cexRowNoKGV
          (((["KGV"] : List String).take 6).filter (presentBoth cexRowKGV cexRowNoKGV)))).2 +
          (((((["KGV"] : List String).take 6)).filter
            (fun k => ! presentBoth cexRowKGV cexRowNoKGV k)).length : ℚ) / 2) :=
  ⟨⟨by decide, by with_unfolding_all decide⟩,
    (c7_absent_metrics_score cexRowKGV cexRowNoKGV ["KGV"]).1 "KGV" (by decide)
      (Or.inr (by with_unfolding_all decide)),
    (c7_absent_metrics_score cexRowKGV cexRowNoKGV ["KGV"]).2⟩


theorem sm_partition_eq_filters (r1 r2 : Row) (order : List String) :
    sm_partition r1 r2 order =
      (order.filter (fun k => has_value r1 k && has_value r2 k),
       order.filter (fun k =>
         (has_value r1 k || has_value r2 k) && ! (has_value r1 k && has_value r2 k))) := by
  unfold sm_partition
  suffices h : ∀ (b0 e0 : List String),
      order.foldl
        (fun be key =>
          if has_value r1 key && has_value r2 key then (be.1 ++ [key], be.2)
          else if has_value r1 key || has_value r2 key then (be.1, be.2 ++ [key])
          else be)
        (b0, e0) =
      (b0 ++ order.filter (fun k => has_value r1 k && has_value r2 k),
       e0 ++ order.filter (fun k =>
         (has_value r1 k || has_value r2 k) && ! (has_value r1 k && has_value r2 k))) by
    simpa using h [] []
  induction order with
  | nil => intro b0 e0; simp
  | cons k l ih =>
    intro b0 e0
    cases h1 : has_value r1 k <;> cases h2 : has_value r2 k <;>
      simp only [List.foldl_cons, List.filter_cons, h1, h2, Bool.and_self, Bool.and_true,
        Bool.and_false, Bool.true_and, Bool.false_and, Bool.or_self, Bool.or_true,
        Bool.true_or, Bool.false_or, Bool.not_true, Bool.not_false, if_true, if_false,
        Bool.true_and, ih] <;>
      simp [List.append_assoc]

theorem order_foldl_nodup (p : String → Prop) [DecidablePred p] (cand : List String) :
    ∀ acc : List String, acc.Nodup →
      (cand.foldl (fun acc key => if key ∉ acc ∧ p key then acc ++ [key] else acc)
        acc).Nodup := by
  induction cand with
  | nil => intro acc h; simpa using h
  | cons k l ih =>
    intro acc h
    simp only [List.foldl_cons]
    by_cases hk : k ∉ acc ∧ p k
    · rw [if_pos hk]
      apply ih
      rw [List.nodup_append]
      exact ⟨h, List.nodup_singleton _, by simpa using hk.1⟩
    · rw [if_neg hk]
      exact ih acc h

theorem sm_order_nodup (r1 r2 : Row) (req : List String) (sec : Option String) :
    (sm_order r1 r2 req sec).Nodup := by
  unfold sm_order
  exact order_foldl_nodup
    (fun key => (resolve_col r1 key).isSome ∨ (resolve_col r2 key).isSome)
    (sm_candidates req sec) [] List.nodup_nil

/-- C6 counterexample: on two rows with no resolvable columns the code
returns an empty selection, while the claimed reselection from the full
fallback catalog would return six keys. -/
theorem c6_counterexample :
    select_metrics [] [] [] none = [] ∧
    select_metrics_claimed [] [] [] none =
      ["KGV", "Forward PE", "KUV", "Nettomarge", "Operative Marge", "Bruttomarge"] ∧
    select_metrics [] [] [] none ≠ select_metrics_claimed [] [] [] none := by
  refine ⟨by decide, by decide, by decide⟩

/-- C6 (amended): `select_metrics` returns at most 6 distinct keys: the
candidate order is the requested list if non-empty (else sector defaults)
with fallback keys appended, deduplicated and restricted to keys resolvable
in at least one row; keys valued in both rows come first (in candidate
order), then keys valued in exactly one; when this yields fewer than 3
keys, the selection is instead the first 6 resolvable candidate keys *not*
already selected — ignoring value presence but still restricted to
resolvable keys and excluding the originally selected ones (not the full
fallback catalog). -/
theorem c6_select_metrics (r1 r2 : Row) (req : List String) (sec : Option String) :
    (select_metrics r1 r2 req sec =
      (let order := sm_order r1 r2 req sec
       let both := order.filter (fun k => has_value r1 k && has_value r2 k)
       let eith := order.filter (fun k =>
         (has_value r1 k || has_value r2 k) && ! (has_value r1 k && has_value r2 k))
       let sel := (both ++ eith).take 6
       if sel.length < 3 then (order.filter (fun k => k ∉ sel)).take 6 else sel)) ∧
    (select_metrics r1 r2 req sec).length ≤ 6 ∧
    (select_metrics r1 r2 req sec).Nodup := by
  have hpart := sm_partition_eq_filters r1 r2 (sm_order r1 r2 req sec)
  have hchar : select_metrics r1 r2 req sec =
      (let order := sm_order r1 r2 req sec
       let both := order.filter (fun k => has_value r1 k && has_value r2 k)
       let eith := order.filter (fun k =>
         (has_value r1 k || has_value r2 k) && ! (has_value r1 k && has_value r2 k))
       let sel := (both ++ eith).take 6
       if sel.length < 3 then (order.filter (fun k => k ∉ sel)).take 6 else sel) := by
    unfold select_metrics
    simp only [hpart]
  refine ⟨hchar, ?_, ?_⟩
  · rw [hchar]
    dsimp only
    split_ifs
    · exact le_trans (List.length_take_le _ _) (le_refl 6)
    · exact le_trans (List.length_take_le _ _) (le_refl 6)
  · rw [hchar]
    have hnd := sm_order_nodup r1 r2 req sec
    dsimp only
    have hboth : ((sm_order r1 r2 req sec).filter
        (fun k => has_value r1 k && has_value r2 k)).Nodup := List.Nodup.filter _ hnd
    have heith : ((sm_order r1 r2 req sec).filter (fun k =>
        (has_value r1 k || has_value r2 k) &&
          ! (has_value r1 k && has_value r2 k))).Nodup := List.Nodup.filter _ hnd
    have happ : (((sm_order r1 r2 req sec).filter
          (fun k => has_value r1 k && has_value r2 k)) ++
        ((sm_order r1 r2 req sec).filter (fun k =>
          (has_value r1 k || has_value r2 k) &&
            ! (has_value r1 k && has_value r2 k)))).Nodup := by
      rw [List.nodup_append]
      refine ⟨hboth, heith, ?_⟩
      intro a ha hb
      have h1 := List.of_mem_filter ha
      have h2 := List.of_mem_filter hb
      simp only [Bool.and_eq_true, Bool.or_eq_true, Bool.not_eq_true'] at h1 h2
      rw [h1.1, h1.2] at h2
      simpa using h2.2
    split_ifs
    · exact List.Nodup.sublist (List.take_sublist _ _) (List.Nodup.filter _ hnd)
    · exact List.Nodup.sublist (List.take_sublist _ _) happ


/-- C4: the compare_app percent formatter renders NaN as a dash, returns
unparseable text unchanged without raising, scales the parsed number by 100
exactly when its magnitude is at most 1.5, renders with a comma decimal
separator and a percent suffix, and maps the three literals of the spec as
claimed. -/
theorem c4_percent_format :
    (∀ key, cmp_fmt_percent_for key none = "–") ∧
    (∀ key v, percent_num v = none → cmp_fmt_percent_for key (some v) = v) ∧
    (∀ key v x, percent_num v = some x →
      cmp_fmt_percent_for key (some v) =
        fmt_locale_cmp (if x.mag ≤ 3 / 2 then ⟨x.neg, x.mag * 100⟩ else x) 1 ++ "%") ∧
    cmp_fmt_percent_for "Dividendenrendite" (some "0.042") = "4,2%" ∧
    cmp_fmt_percent_for "KGV" (some "42") = "42%" ∧
    cmp_fmt_percent_for "KGV" (some "4.2") = "4,2%" := by
  refine ⟨fun key => rfl, ?_, ?_, ?_, ?_, ?_⟩
  · intro key v h
    show (match percent_num v with
      | none => v
      | some x =>
        fmt_locale_cmp (if x.mag ≤ 3 / 2 then PyNum.mk x.neg (x.mag * 100) else x) 1 ++
          "%") = v
    rw [h]
  · intro key v x h
    show (match percent_num v with
      | none => v
      | some x =>
        fmt_locale_cmp (if x.mag ≤ 3 / 2 then PyNum.mk x.neg (x.mag * 100) else x) 1 ++
          "%") = _
    rw [h]
  · with_unfolding_all decide
  · with_unfolding_all decide
  · with_unfolding_all decide

/-- C4 witness: the universally quantified parts of C4 evaluated at
concrete inputs (an unparseable string and a fractional percent). -/
theorem c4_percent_format_witness :
    percent_num "abc" = none ∧
    cmp_fmt_percent_for "KGV" (some "abc") = "abc" ∧
    percent_num "0.042" = some ⟨false, 21 / 500⟩ ∧
    cmp_fmt_percent_for "KGV" (some "0.042") =
      fmt_locale_cmp (if (PyNum.mk false (21 / 500)).mag ≤ 3 / 2
        then ⟨(PyNum.mk false (21 / 500)).neg, (PyNum.mk false (21 / 500)).mag * 100⟩
        else ⟨false, 21 / 500⟩) 1 ++ "%" := by
  have h1 : percent_num "abc" = none := by with_unfolding_all decide
  have h2 : percent_num "0.042" = some ⟨false, 21 / 500⟩ := by with_unfolding_all decide
  exact ⟨h1, c4_percent_format.2.1 "KGV" "abc" h1, h2,
    c4_percent_format.2.2.1 "KGV" "0.042" ⟨false, 21 / 500⟩ h2⟩

/-- C5: for the yield-like keys, the refined app.py percent formatter
multiplies the parsed value by 100 exactly when its magnitude is below 1.5
and the raw text has at least 3 decimal digits; magnitudes below 1.5 with
at most 2 decimal digits stay unscaled, and magnitudes of 1.5 or more are
used as-is. -/
theorem c5_yield_percent_heuristic :
    (∀ key v x, (key = "Dividendenrendite" ∨ key = "Free Cashflow Yield") →
      percent_num v = some x →
      app_fmt_percent_for key (some v) =
        fmt_locale_app (if x.mag < 3 / 2 ∧ 3 ≤ count_decimals (stripPercent v)
          then ⟨x.neg, x.mag * 100⟩ else x) 2 ++ "%") ∧
    app_fmt_percent_for "Dividendenrendite" (some "0.045") = "4,50%" ∧
    app_fmt_percent_for "Dividendenrendite" (some "0.45") = "0,45%" ∧
    app_fmt_percent_for "Free Cashflow Yield" (some "3.2") = "3,20%" := by
  refine ⟨?_, ?_, ?_, ?_⟩
  · intro key v x hk h
    show (match percent_num v with
      | none => v
      | some x =>
        fmt_locale_app
          (if key = "Dividendenrendite" ∨ key = "Free Cashflow Yield" then
            if x.mag < 3 / 2 ∧ 3 ≤ count_decimals (stripPercent v) then
              PyNum.mk x.neg (x.mag * 100)
            else x
          else if x.mag ≤ 3 / 2 then PyNum.mk x.neg (x.mag * 100) else x) 2 ++ "%") = _
    rw [h]
    show fmt_locale_app
        (if key = "Dividendenrendite" ∨ key = "Free Cashflow Yield" then
          if x.mag < 3 / 2 ∧ 3 ≤ count_decimals (stripPercent v) then
            PyNum.mk x.neg (x.mag * 100)
          else x
        else if x.mag ≤ 3 / 2 then PyNum.mk x.neg (x.mag * 100) else x) 2 ++ "%" = _
    rw [if_pos hk]
  · with_unfolding_all decide
  · with_unfolding_all decide
  · with_unfolding_all decide

/-- C5 witness: the quantified part of C5 at the fractional literal
`0.045`. -/
theorem c5_yield_percent_heuristic_witness :
    percent_num "0.045" = some ⟨false, 9 / 200⟩ ∧
    app_fmt_percent_for "Dividendenrendite" (some "0.045") =
      fmt_locale_app (if (PyNum.mk false (9 / 200)).mag < 3 / 2 ∧
          3 ≤ count_decimals (stripPercent "0.045")
        then ⟨(PyNum.mk false (9 / 200)).neg, (PyNum.mk false (9 / 200)).mag * 100⟩
        else ⟨false, 9 / 200⟩) 2 ++ "%" := by
  have h : percent_num "0.045" = some ⟨false, 9 / 200⟩ := by with_unfolding_all decide
  exact ⟨h, c5_yield_percent_heuristic.1 "Dividendenrendite" "0.045" ⟨false, 9 / 200⟩
    (Or.inl rfl) h⟩


theorem digitChar_isDigit {d : ℕ} (h : d < 10) : (digitChar d).isDigit = true := by
  interval_cases d <;> decide

theorem digitVal_digitChar {d : ℕ} (h : d < 10) : digitVal (digitChar d) = d := by
  interval_cases d <;> decide

theorem digitChar_eq_zero_iff {d : ℕ} (h : d < 10) : digitChar d = '0' ↔ d = 0 := by
  interval_cases d <;> decide

theorem isDigit_ne_comma {c : Char} (h : c.isDigit = true) : c ≠ ',' := by
  intro he
  subst he
  exact absurd h (by decide)

theorem isDigit_ne_dot {c : Char} (h : c.isDigit = true) : c ≠ '.' := by
  intro he
  subst he
  exact absurd h (by decide)

theorem isDigit_ne_space {c : Char} (h : c.isDigit = true) : c ≠ ' ' := by
  intro he
  subst he
  exact absurd h (by decide)

theorem isDigit_ne_minus {c : Char} (h : c.isDigit = true) : c ≠ '-' := by
  intro he
  subst he
  exact absurd h (by decide)

theorem isDigit_ne_plus {c : Char} (h : c.isDigit = true) : c ≠ '+' := by
  intro he
  subst he
  exact absurd h (by decide)

theorem swapSepCmp_digit {c : Char} (h : c.isDigit = true) : swapSepCmp c = c := by
  unfold swapSepCmp
  rw [if_neg (isDigit_ne_comma h), if_neg (isDigit_ne_dot h)]

theorem natChars_ne_nil (n : ℕ) : natChars n ≠ [] := by
  unfold natChars
  split_ifs with h
  · simp
  · simp [Nat.digits_ne_nil_iff_ne_zero, h]

theorem natChars_all_digit (n : ℕ) : ∀ c ∈ natChars n, c.isDigit = true := by
  unfold natChars
  split_ifs with h
  · intro c hc
    simp at hc
    subst hc
    decide
  · intro c hc
    simp only [List.mem_map, List.mem_reverse] at hc
    obtain ⟨d, hd, rfl⟩ := hc
    exact digitChar_isDigit (Nat.digits_lt_base (by norm_num) hd)

theorem digitsVal_go (l : List Char) :
    ∀ a : ℕ, l.foldl (fun a c => 10 * a + digitVal c) a =
      a * 10 ^ l.length + digitsVal l := by
  induction l with
  | nil => intro a; simp [digitsVal]
  | cons c l ih =>
    intro a
    have h1 : digitsVal (c :: l) = (digitVal c) * 10 ^ l.length + digitsVal l := by
      show List.foldl (fun a c => 10 * a + digitVal c) 0 (c :: l) = _
      rw [List.foldl_cons, ih (10 * 0 + digitVal c)]
      norm_num
    rw [List.foldl_cons, ih, h1, List.length_cons, pow_succ]
    ring

theorem digitsVal_append (l1 l2 : List Char) :
    digitsVal (l1 ++ l2) = digitsVal l1 * 10 ^ l2.length + digitsVal l2 := by
  unfold digitsVal
  rw [List.foldl_append]
  rw [show List.foldl (fun a c => 10 * a + digitVal c) 0 l1 = digitsVal l1 from rfl]
  exact digitsVal_go l2 (digitsVal l1)

theorem digitsVal_natChars (n : ℕ) : digitsVal (natChars n) = n := by
  unfold natChars
  split_ifs with h
  · simp [h, digitsVal, List.foldl, digitVal]
    decide
  · have hd : ∀ l : List ℕ, (∀ d ∈ l, d < 10) →
        digitsVal (l.reverse.map digitChar) = Nat.ofDigits 10 l := by
      intro l
      induction l with
      | nil => intro _; simp [digitsVal, Nat.ofDigits]
      | cons d l ih =>
        intro hl
        rw [List.reverse_cons, List.map_append, digitsVal_append]
        simp only [List.map_cons, List.map_nil]
        have h1 : digitsVal [digitChar d] = d := by
          show 10 * 0 + digitVal (digitChar d) = d
          rw [digitVal_digitChar (hl d (by simp))]
          ring
        rw [h1, ih (fun x hx => hl x (by simp [hx])), Nat.ofDigits_cons]
        simp
        ring
    rw [hd (Nat.digits 10 n) (fun d hd => Nat.digits_lt_base (by norm_num) hd)]
    exact Nat.ofDigits_digits 10 n

theorem natChars_len_le {n k : ℕ} (hk : 1 ≤ k) (h : n < 10 ^ k) :
    (natChars n).length ≤ k := by
  unfold natChars
  split_ifs with h0
  · simpa using hk
  · rw [List.length_map, List.length_reverse]
    by_contra hgt
    have hle := Nat.base_pow_length_digits_le 10 n (by norm_num) h0
    have hpow : (10 : ℕ) ^ (k + 1) ≤ 10 ^ (Nat.digits 10 n).length :=
      Nat.pow_le_pow_right (by norm_num) (by omega)
    have h2 : (10 : ℕ) ^ (k + 1) ≤ 10 * n := le_trans hpow hle
    have h3 : (10 : ℕ) ^ (k + 1) = 10 * 10 ^ k := by ring
    omega

theorem natChars_single {n : ℕ} (h : n < 10) : natChars n = [digitChar n] := by
  unfold natChars
  split_ifs with h0
  · rw [h0]
  · rw [Nat.digits_def' (b := 10) (by norm_num) (Nat.pos_of_ne_zero h0)]
    rw [Nat.div_eq_of_lt h]
    simp [Nat.mod_eq_of_lt h]

theorem natChars_two {n : ℕ} (h1 : 10 ≤ n) (h2 : n < 100) :
    natChars n = [digitChar (n / 10), digitChar (n % 10)] := by
  unfold natChars
  split_ifs with h0
  · omega
  · rw [Nat.digits_def' (b := 10) (by norm_num) (Nat.pos_of_ne_zero h0)]
    have hq1 : 1 ≤ n / 10 := Nat.le_div_iff_mul_le (by norm_num) |>.mpr (by omega)
    have hq2 : n / 10 < 10 := Nat.div_lt_of_lt_mul (by omega)
    rw [Nat.digits_def' (b := 10) (by norm_num) (by omega)]
    rw [Nat.div_eq_of_lt hq2, Nat.mod_eq_of_lt hq2]
    simp


theorem rndHalfEven_intCast (k : ℤ) : rndHalfEven (k : ℚ) = k := by
  unfold rndHalfEven
  rw [Int.floor_intCast, sub_self]
  norm_num

theorem rndHalfEven_nonneg {q : ℚ} (h : 0 ≤ q) : 0 ≤ rndHalfEven q := by
  unfold rndHalfEven
  have hf : (0 : ℤ) ≤ ⌊q⌋ := Int.floor_nonneg.mpr h
  split_ifs <;> omega

theorem takeWhile_append_all {p : Char → Bool} {l1 : List Char} (l2 : List Char)
    (h : ∀ a ∈ l1, p a = true) :
    (l1 ++ l2).takeWhile p = l1 ++ l2.takeWhile p := by
  induction l1 with
  | nil => simp
  | cons c l ih =>
    rw [List.cons_append, List.takeWhile_cons_of_pos (h c (by simp)),
      ih (fun a ha => h a (by simp [ha]))]
    rfl

theorem dropWhile_append_all {p : Char → Bool} {l1 : List Char} (l2 : List Char)
    (h : ∀ a ∈ l1, p a = true) :
    (l1 ++ l2).dropWhile p = l2.dropWhile p := by
  induction l1 with
  | nil => simp
  | cons c l ih =>
    rw [List.cons_append, List.dropWhile_cons_of_pos (h c (by simp))]
    exact ih (fun a ha => h a (by simp [ha]))

theorem rstrip_append_ne {l : List Char} {c c0 : Char} (h : c ≠ c0) :
    rstrip (l ++ [c]) c0 = l ++ [c] := by
  unfold rstrip
  rw [List.reverse_append]
  simp only [List.reverse_singleton, List.singleton_append]
  rw [List.dropWhile_cons_of_neg (by simpa using h)]
  simp

theorem rstrip_append_eq (l : List Char) (c0 : Char) :
    rstrip (l ++ [c0]) c0 = rstrip l c0 := by
  unfold rstrip
  rw [List.reverse_append]
  simp only [List.reverse_singleton, List.singleton_append]
  rw [List.dropWhile_cons_of_pos (by simp)]

theorem natChars_concat (n : ℕ) :
    ∃ l0 cl, natChars n = l0 ++ [cl] ∧ cl.isDigit = true := by
  have hne := natChars_ne_nil n
  exact ⟨(natChars n).dropLast, (natChars n).getLast hne,
    (List.dropLast_append_getLast hne).symm,
    natChars_all_digit n _ (List.getLast_mem hne)⟩

/-- Shape of the fixed-point render for `dec = 2` and `n < 100000`: a sign,
at most three integer digits (no thousands separator), a point and two
fractional digits. -/
theorem fmtFixedRounded_eq {n : ℕ} (hn : n < 100000) (neg : Bool) :
    fmtFixedRounded neg n 2 =
      (if neg then ['-'] else []) ++ natChars (n / 100) ++
        ['.', digitChar (n % 100 / 10), digitChar (n % 100 % 10)] := by
  unfold fmtFixedRounded
  have hg : group3 (natChars (n / 10 ^ 2)) = natChars (n / 10 ^ 2) := by
    have hlen : (natChars (n / 10 ^ 2)).length ≤ 3 :=
      natChars_len_le (by norm_num) (by norm_num; omega)
    unfold group3
    rcases hl : natChars (n / 10 ^ 2) with - | ⟨a, - | ⟨b, - | ⟨c, - | ⟨d, r⟩⟩⟩⟩ <;>
      simp_all [group3Aux]
  rw [hg]
  have hfp : n % 10 ^ 2 < 100 := by
    have h2 : (10 : ℕ) ^ 2 = 100 := by norm_num
    omega
  have hfrac : List.replicate (2 - (natChars (n % 10 ^ 2)).length) '0' ++
      natChars (n % 10 ^ 2) =
      [digitChar (n % 100 / 10), digitChar (n % 100 % 10)] := by
    have h100 : n % 10 ^ 2 = n % 100 := by norm_num
    rw [h100]
    by_cases hlt : n % 100 < 10
    · rw [natChars_single hlt]
      have h0 : n % 100 / 10 = 0 := by omega
      have h1 : n % 100 % 10 = n % 100 := by omega
      rw [h0, h1]
      rfl
    · rw [natChars_two (by omega) (by omega)]
      simp
  rw [if_neg (by norm_num : ¬ (2 : ℕ) = 0), hfrac]
  have h100 : n / 10 ^ 2 = n / 100 := by norm_num
  rw [h100]


theorem map_swapSep_digits {l : List Char} (h : ∀ c ∈ l, c.isDigit = true) :
    l.map swapSepCmp = l := by
  induction l with
  | nil => rfl
  | cons c r ih =>
    rw [List.map_cons, swapSepCmp_digit (h c (by simp)),
      ih (fun a ha => h a (by simp [ha]))]

theorem mapped_render {n : ℕ} (hn : n < 100000) (neg : Bool) :
    (fmtFixedRounded neg n 2).map swapSepCmp =
      (if neg then ['-'] else []) ++ natChars (n / 100) ++
        [',', digitChar (n % 100 / 10), digitChar (n % 100 % 10)] := by
  rw [fmtFixedRounded_eq hn]
  rw [List.map_append, List.map_append]
  have h1 : (if neg then ['-'] else []).map swapSepCmp = (if neg then ['-'] else []) := by
    cases neg <;> rfl
  have h2 : (natChars (n / 100)).map swapSepCmp = natChars (n / 100) :=
    map_swapSep_digits (natChars_all_digit _)
  have hd1 : n % 100 / 10 < 10 := by omega
  have hd2 : n % 100 % 10 < 10 := by omega
  have h3 : (['.', digitChar (n % 100 / 10), digitChar (n % 100 % 10)]).map swapSepCmp =
      [',', digitChar (n % 100 / 10), digitChar (n % 100 % 10)] := by
    simp only [List.map_cons, List.map_nil]
    rw [swapSepCmp_digit (digitChar_isDigit hd1), swapSepCmp_digit (digitChar_isDigit hd2)]
    rfl
  rw [h1, h2, h3]

theorem strip_render {n : ℕ} (hn : n < 100000) (neg : Bool) :
    fmt_locale_cmpN neg n 2 =
      ((if neg then ['-'] else []) ++ natChars (n / 100) ++
        (if n % 100 = 0 then []
         else if n % 100 % 10 = 0 then [',', digitChar (n % 100 / 10)]
         else [',', digitChar (n % 100 / 10), digitChar (n % 100 % 10)])).asString := by
  unfold fmt_locale_cmpN
  rw [mapped_render hn]
  have hmem : (',' : Char) ∈ (if neg then ['-'] else []) ++ natChars (n / 100) ++
      [',', digitChar (n % 100 / 10), digitChar (n % 100 % 10)] := by
    simp
  have hcond : (((if neg then ['-'] else []) ++ natChars (n / 100) ++
      [',', digitChar (n % 100 / 10), digitChar (n % 100 % 10)]).contains ',' ∧
      (0 : ℕ) < 2) := by
    refine ⟨?_, by norm_num⟩
    rw [List.contains_eq_any_beq]
    rw [List.any_eq_true]
    exact ⟨',', hmem, by simp⟩
  rw [if_pos hcond]
  congr 1
  by_cases hz : n % 100 = 0
  · have hd1 : n % 100 / 10 = 0 := by omega
    have hd2 : n % 100 % 10 = 0 := by omega
    rw [hd1, hd2, if_pos hz]
    rw [show (digitChar 0) = '0' from rfl]
    rw [show (if neg then ['-'] else []) ++ natChars (n / 100) ++ [',', '0', '0'] =
        ((((if neg then ['-'] else []) ++ natChars (n / 100) ++ [',']) ++ ['0']) ++ ['0'])
      from by simp]
    rw [rstrip_append_eq, rstrip_append_eq]
    rw [show (if neg then ['-'] else []) ++ natChars (n / 100) ++ [','] =
        ((if neg then ['-'] else []) ++ natChars (n / 100)) ++ [','] from by simp]
    rw [rstrip_append_ne (by decide : (',' : Char) ≠ '0')]
    rw [rstrip_append_eq]
    obtain ⟨l0, cl, hdec, hcldig⟩ := natChars_concat (n / 100)
    rw [hdec]
    rw [show (if neg then ['-'] else []) ++ (l0 ++ [cl]) =
        ((if neg then ['-'] else []) ++ l0) ++ [cl] from by simp]
    rw [rstrip_append_ne (isDigit_ne_comma hcldig)]
    try simp
  · by_cases hz2 : n % 100 % 10 = 0
    · have hd1pos : n % 100 / 10 ≠ 0 := by omega
      rw [if_neg hz, if_pos hz2, hz2]
      rw [show (digitChar 0) = '0' from rfl]
      rw [show (if neg then ['-'] else []) ++ natChars (n / 100) ++
          [',', digitChar (n % 100 / 10), '0'] =
          (((if neg then ['-'] else []) ++ natChars (n / 100) ++
            [',', digitChar (n % 100 / 10)]) ++ ['0']) from by simp]
      rw [rstrip_append_eq]
      have hne0 : digitChar (n % 100 / 10) ≠ '0' := by
        rw [ne_eq, digitChar_eq_zero_iff (by omega)]
        exact hd1pos
      rw [show (if neg then ['-'] else []) ++ natChars (n / 100) ++
          [',', digitChar (n % 100 / 10)] =
          (((if neg then ['-'] else []) ++ natChars (n / 100) ++ [',']) ++
            [digitChar (n % 100 / 10)]) from by simp]
      rw [rstrip_append_ne hne0]
      rw [rstrip_append_ne (isDigit_ne_comma (digitChar_isDigit (by omega)))]
      try simp
    · have hne0 : digitChar (n % 100 % 10) ≠ '0' := by
        rw [ne_eq, digitChar_eq_zero_iff (by omega)]
        exact hz2
      rw [if_neg hz, if_neg hz2]
      rw [show (if neg then ['-'] else []) ++ natChars (n / 100) ++
          [',', digitChar (n % 100 / 10), digitChar (n % 100 % 10)] =
          (((if neg then ['-'] else []) ++ natChars (n / 100) ++
            [',', digitChar (n % 100 / 10)]) ++ [digitChar (n % 100 % 10)])
        from by simp]
      rw [rstrip_append_ne hne0]
      rw [rstrip_append_ne (by
        rw [ne_eq]
        intro hcc
        have := digitChar_isDigit (show n % 100 % 10 < 10 by omega)
        rw [hcc] at this
        exact absurd this (by decide))]


theorem dropWhile_space_of_no {l : List Char} (h : ∀ c ∈ l, c ≠ ' ') :
    l.dropWhile (· = ' ') = l := by
  cases l with
  | nil => rfl
  | cons c r =>
    rw [List.dropWhile_cons_of_neg (by simpa using h c (by simp))]

theorem trimSpaces_of_no_space {l : List Char} (h : ∀ c ∈ l, c ≠ ' ') :
    trimSpaces l = l := by
  unfold trimSpaces
  rw [dropWhile_space_of_no h,
    dropWhile_space_of_no (fun c hc => h c (List.mem_reverse.mp hc)), List.reverse_reverse]

theorem takeWhile_all {p : Char → Bool} {l : List Char} (h : ∀ a ∈ l, p a = true) :
    l.takeWhile p = l := by
  have := @takeWhile_append_all p l [] h
  simpa using this

theorem dropWhile_all {p : Char → Bool} {l : List Char} (h : ∀ a ∈ l, p a = true) :
    l.dropWhile p = [] := by
  have := @dropWhile_append_all p l [] h
  simpa using this

theorem parseMantissa_int {I : List Char} (hI : I ≠ [])
    (hdig : ∀ c ∈ I, c.isDigit = true) :
    parseMantissa I = some ((digitsVal I : ℚ), []) := by
  unfold parseMantissa
  rw [dropWhile_all hdig, takeWhile_all hdig]
  rw [if_neg (by simpa using hI)]

theorem parseMantissa_frac {I F : List Char} (hI : I ≠ [])
    (hdigI : ∀ c ∈ I, c.isDigit = true) (hdigF : ∀ c ∈ F, c.isDigit = true) :
    parseMantissa (I ++ '.' :: F) =
      some ((digitsVal I : ℚ) + (digitsVal F : ℚ) / 10 ^ F.length, []) := by
  unfold parseMantissa
  have hdw : (I ++ '.' :: F).dropWhile Char.isDigit = '.' :: F := by
    rw [dropWhile_append_all _ hdigI, List.dropWhile_cons_of_neg (by decide)]
  have htw : (I ++ '.' :: F).takeWhile Char.isDigit = I := by
    rw [takeWhile_append_all _ hdigI, List.takeWhile_cons_of_neg (by decide)]
    simp
  rw [hdw, htw]
  show (if I.isEmpty ∧ (F.takeWhile Char.isDigit).isEmpty then none
    else some ((digitsVal I : ℚ) +
      (digitsVal (F.takeWhile Char.isDigit) : ℚ) / 10 ^ (F.takeWhile Char.isDigit).length,
      F.dropWhile Char.isDigit)) = _
  rw [takeWhile_all hdigF, dropWhile_all hdigF]
  rw [if_neg (by simp [hI])]

theorem parseAfterSign_int {neg : Bool} {I : List Char} (hI : I ≠ [])
    (hdig : ∀ c ∈ I, c.isDigit = true) :
    parseAfterSign neg I = some ⟨neg, (digitsVal I : ℚ)⟩ := by
  unfold parseAfterSign
  rw [parseMantissa_int hI hdig]
  show (if ([] : List Char).isEmpty then
    some (PyNum.mk neg ((digitsVal I : ℚ) * (10 : ℚ) ^ (0 : ℤ))) else none) = _
  rw [if_pos (by rfl)]
  rw [zpow_zero, mul_one]

theorem parseAfterSign_frac {neg : Bool} {I F : List Char} (hI : I ≠ [])
    (hdigI : ∀ c ∈ I, c.isDigit = true) (hdigF : ∀ c ∈ F, c.isDigit = true) :
    parseAfterSign neg (I ++ '.' :: F) =
      some ⟨neg, (digitsVal I : ℚ) + (digitsVal F : ℚ) / 10 ^ F.length⟩ := by
  unfold parseAfterSign
  rw [parseMantissa_frac hI hdigI hdigF]
  show (if ([] : List Char).isEmpty then
    some (PyNum.mk neg (((digitsVal I : ℚ) + (digitsVal F : ℚ) / 10 ^ F.length) *
      (10 : ℚ) ^ (0 : ℤ))) else none) = _
  rw [if_pos (by rfl)]
  rw [zpow_zero, mul_one]


theorem digitsVal_singleton (c : Char) : digitsVal [c] = digitVal c := by
  show 10 * 0 + digitVal c = digitVal c
  ring

theorem digitsVal_pair (c1 c2 : Char) :
    digitsVal [c1, c2] = 10 * digitVal c1 + digitVal c2 := by
  show 10 * (10 * 0 + digitVal c1) + digitVal c2 = _
  ring

theorem parseSign_minus (r : List Char) : parseSign ('-' :: r) = (true, r) := by
  show (if ('-' : Char) = '-' then ((true : Bool), r)
    else if ('-' : Char) = '+' then (false, r) else (false, '-' :: r)) = (true, r)
  rw [if_pos rfl]

theorem parseSign_digit {c : Char} (r : List Char) (h : c.isDigit = true) :
    parseSign (c :: r) = (false, c :: r) := by
  show (if c = '-' then ((true : Bool), r)
    else if c = '+' then (false, r) else (false, c :: r)) = (false, c :: r)
  rw [if_neg (isDigit_ne_minus h), if_neg (isDigit_ne_plus h)]

theorem map_dot_digits {l : List Char} (h : ∀ c ∈ l, c.isDigit = true) :
    l.map (fun c => if c = ',' then '.' else c) = l := by
  induction l with
  | nil => rfl
  | cons c r ih =>
    rw [List.map_cons, if_neg (isDigit_ne_comma (h c (by simp))),
      ih (fun a ha => h a (by simp [ha]))]

/-- The sign stage of the parser on a rendering: an optional minus followed
by a digit-initial rest. -/
theorem parseSign_split (neg : Bool) {I : List Char} (t : List Char) (hI : I ≠ [])
    (hIdig : ∀ c ∈ I, c.isDigit = true) :
    parseSign ((if neg then ['-'] else []) ++ I ++ t) = (neg, I ++ t) := by
  cases neg
  · simp only [Bool.false_eq_true, if_neg (by decide : ¬ False), List.nil_append]
    rcases hIc : I with - | ⟨c0, I1⟩
    · exact absurd hIc hI
    · rw [List.cons_append]
      exact parseSign_digit _ (hIdig c0 (by rw [hIc]; simp))
  · simp only [if_pos trivial]
    rw [show ['-'] ++ I ++ t = '-' :: (I ++ t) from by simp]
    exact parseSign_minus _

/-- Re-parsing the German-formatted two-decimal rendering recovers the sign
and the exact rounded value `n / 100`. -/
theorem parse_render {n : ℕ} (hn : n < 100000) (neg : Bool) :
    parseNum (commaToDot (fmt_locale_cmpN neg n 2)) = some ⟨neg, (n : ℚ) / 100⟩ := by
  rw [strip_render hn neg]
  set I := natChars (n / 100) with hIdef
  have hI : I ≠ [] := natChars_ne_nil _
  have hIdig : ∀ c ∈ I, c.isDigit = true := natChars_all_digit _
  have hd1 : n % 100 / 10 < 10 := by omega
  have hd2 : n % 100 % 10 < 10 := by omega
  have hne1 : digitChar (n % 100 / 10) ≠ ',' := isDigit_ne_comma (digitChar_isDigit hd1)
  have hne2 : digitChar (n % 100 % 10) ≠ ',' := isDigit_ne_comma (digitChar_isDigit hd2)
  have hmap : ((if neg then ['-'] else []) ++ I ++
      (if n % 100 = 0 then []
       else if n % 100 % 10 = 0 then [',', digitChar (n % 100 / 10)]
       else [',', digitChar (n % 100 / 10), digitChar (n % 100 % 10)])).map
        (fun c => if c = ',' then '.' else c) =
      (if neg then ['-'] else []) ++ I ++
      (if n % 100 = 0 then []
       else if n % 100 % 10 = 0 then ['.', digitChar (n % 100 / 10)]
       else ['.', digitChar (n % 100 / 10), digitChar (n % 100 % 10)]) := by
    rw [List.map_append, List.map_append, map_dot_digits hIdig]
    congr 1
    · congr 1
      cases neg <;> rfl
    · split_ifs with h1 h2
      · rfl
      · simp [hne1]
      · simp [hne1, hne2]
  have hns : ∀ c ∈ (if neg then ['-'] else []) ++ I ++
      (if n % 100 = 0 then []
       else if n % 100 % 10 = 0 then ['.', digitChar (n % 100 / 10)]
       else ['.', digitChar (n % 100 / 10), digitChar (n % 100 % 10)]), c ≠ ' ' := by
    intro c hc
    simp only [List.mem_append] at hc
    rcases hc with (hc | hc) | hc
    · cases neg
      · simp at hc
      · simp at hc
        subst hc
        decide
    · exact isDigit_ne_space (hIdig c hc)
    · split_ifs at hc with h1 h2
      · simp at hc
      · simp at hc
        rcases hc with hc | hc
        · subst hc; decide
        · subst hc; exact isDigit_ne_space (digitChar_isDigit hd1)
      · simp at hc
        rcases hc with hc | hc | hc
        · subst hc; decide
        · subst hc; exact isDigit_ne_space (digitChar_isDigit hd1)
        · subst hc; exact isDigit_ne_space (digitChar_isDigit hd2)
  have hvI : (digitsVal I : ℚ) = ((n / 100 : ℕ) : ℚ) := by
    rw [hIdef, digitsVal_natChars]
  show parseAfterSign _ _ = _
  rw [show (commaToDot (((if neg then ['-'] else []) ++ I ++
      (if n % 100 = 0 then []
       else if n % 100 % 10 = 0 then [',', digitChar (n % 100 / 10)]
       else [',', digitChar (n % 100 / 10),
         digitChar (n % 100 % 10)])).asString)).toList =
    ((if neg then ['-'] else []) ++ I ++
      (if n % 100 = 0 then []
       else if n % 100 % 10 = 0 then [',', digitChar (n % 100 / 10)]
       else [',', digitChar (n % 100 / 10), digitChar (n % 100 % 10)])).map
        (fun c => if c = ',' then '.' else c) from rfl]
  rw [hmap, trimSpaces_of_no_space hns]
  by_cases h1 : n % 100 = 0
  · rw [if_pos h1]
    rw [parseSign_split neg [] hI hIdig]
    show parseAfterSign neg (I ++ []) = _
    rw [List.append_nil]
    rw [parseAfterSign_int hI hIdig]
    rw [Option.some.injEq, PyNum.mk.injEq]
    refine ⟨rfl, ?_⟩
    rw [hvI]
    have hdvd : n = 100 * (n / 100) := by omega
    have hq : (n : ℚ) = 100 * ((n / 100 : ℕ) : ℚ) := by exact_mod_cast hdvd
    rw [hq]
    field_simp
  · by_cases h2 : n % 100 % 10 = 0
    · rw [if_neg h1, if_pos h2]
      rw [parseSign_split neg ['.', digitChar (n % 100 / 10)] hI hIdig]
      show parseAfterSign neg (I ++ '.' :: [digitChar (n % 100 / 10)]) = _
      rw [parseAfterSign_frac hI hIdig
        (by intro c hc; simp at hc; subst hc; exact digitChar_isDigit hd1)]
      rw [Option.some.injEq, PyNum.mk.injEq]
      refine ⟨rfl, ?_⟩
      rw [digitsVal_singleton, digitVal_digitChar hd1, hvI]
      have hnat : n = 100 * (n / 100) + 10 * (n % 100 / 10) := by omega
      have hq : (n : ℚ) = 100 * ((n / 100 : ℕ) : ℚ) + 10 * ((n % 100 / 10 : ℕ) : ℚ) := by
        exact_mod_cast hnat
      rw [hq]
      simp only [List.length_singleton]
      field_simp
      ring
    · rw [if_neg h1, if_neg h2]
      rw [parseSign_split neg ['.', digitChar (n % 100 / 10), digitChar (n % 100 % 10)]
        hI hIdig]
      show parseAfterSign neg
        (I ++ '.' :: [digitChar (n % 100 / 10), digitChar (n % 100 % 10)]) = _
      rw [parseAfterSign_frac hI hIdig
        (by
          intro c hc
          simp at hc
          rcases hc with hc | hc
          · subst hc; exact digitChar_isDigit hd1
          · subst hc; exact digitChar_isDigit hd2)]
      rw [Option.some.injEq, PyNum.mk.injEq]
      refine ⟨rfl, ?_⟩
      rw [digitsVal_pair, digitVal_digitChar hd1, digitVal_digitChar hd2, hvI]
      have hnat : n = 100 * (n / 100) + (10 * (n % 100 / 10) + n % 100 % 10) := by omega
      have hq : (n : ℚ) = 100 * ((n / 100 : ℕ) : ℚ) +
          (10 * ((n % 100 / 10 : ℕ) : ℚ) + ((n % 100 % 10 : ℕ) : ℚ)) := by
        exact_mod_cast hnat
      rw [hq]
      simp only [List.length_cons, List.length_singleton]
      push_cast
      field_simp
      ring


/-- C9 counterexample: formatting is not idempotent at 1000 — the rendered
thousands separator `.` is re-read as a decimal point, so
`fmt_number (fmt_number 1000)` collapses `"1.000"` to `"1"`. -/
theorem c9_counterexample :
    fmt_number_num ⟨false, 1000⟩ = "1.000" ∧
    fmt_number (some (fmt_number_num ⟨false, 1000⟩)) = "1" ∧
    ("1" : String) ≠ "1.000" := by
  refine ⟨by with_unfolding_all decide, by with_unfolding_all decide, by decide⟩

/-- C9 (amended): formatting is idempotent for every numeric value whose
magnitude rounds below 1000 at two decimals — exactly the values rendered
without a thousands separator.  With a separator the reparse misreads `.`
as a decimal point (see the counterexample at 1000). -/
theorem c9_fmt_number_idempotent (x : PyNum) (hmag : 0 ≤ x.mag)
    (hsmall : rndHalfEven (x.mag * 100) < 100000) :
    fmt_number (some (fmt_number_num x)) = fmt_number_num x := by
  have hnn : 0 ≤ rndHalfEven (x.mag * 100) :=
    rndHalfEven_nonneg (by positivity)
  have hn : (rndHalfEven (x.mag * 100)).toNat < 100000 := by omega
  have hfmt : fmt_number_num x =
      fmt_locale_cmpN x.neg (rndHalfEven (x.mag * 100)).toNat 2 := by
    unfold fmt_number_num fmt_locale_cmp
    rw [show x.mag * 10 ^ (2 : ℕ) = x.mag * 100 from by norm_num]
  rw [hfmt]
  show (match parseNum (commaToDot
      (fmt_locale_cmpN x.neg (rndHalfEven (x.mag * 100)).toNat 2)) with
    | none => fmt_locale_cmpN x.neg (rndHalfEven (x.mag * 100)).toNat 2
    | some y => fmt_locale_cmp y 2) = _
  rw [parse_render hn x.neg]
  show fmt_locale_cmp ⟨x.neg, ((rndHalfEven (x.mag * 100)).toNat : ℚ) / 100⟩ 2 =
    fmt_locale_cmpN x.neg (rndHalfEven (x.mag * 100)).toNat 2
  unfold fmt_locale_cmp
  have harg : (rndHalfEven ((((rndHalfEven (x.mag * 100)).toNat : ℚ) / 100) *
      10 ^ (2 : ℕ))).toNat = (rndHalfEven (x.mag * 100)).toNat := by
    rw [show ((10 : ℚ) ^ (2 : ℕ)) = 100 from by norm_num]
    rw [div_mul_cancel₀ _ (by norm_num : (100 : ℚ) ≠ 0)]
    rw [show (((rndHalfEven (x.mag * 100)).toNat : ℚ)) =
        (((rndHalfEven (x.mag * 100)).toNat : ℤ) : ℚ) from by push_cast; rfl]
    rw [rndHalfEven_intCast]
    omega
  rw [harg]

/-- C9 witness: idempotence evaluated at 4.5 through the amended theorem. -/
theorem c9_fmt_number_idempotent_witness :
    (0 ≤ (PyNum.mk false (9 / 2)).mag ∧
      rndHalfEven ((PyNum.mk false (9 / 2)).mag * 100) < 100000) ∧
    fmt_number (some (fmt_number_num ⟨false, 9 / 2⟩)) = fmt_number_num ⟨false, 9 / 2⟩ :=
  ⟨⟨by with_unfolding_all decide, by with_unfolding_all decide⟩,
    c9_fmt_number_idempotent ⟨false, 9 / 2⟩ (by with_unfolding_all decide)
      (by with_unfolding_all decide)⟩

end StockTool
